import Mathlib

/-!
Verification of the core of `slurm_gpustat` (`slurm_gpustat/slurm_gpustat.py`):
the SLURM node-range-expression parser (`split_node_str`, `parse_node_names`),
the per-user usage aggregator (`gpu_usage`), the conservative availability
estimator (`available`), the accessibility filters used by `summary` and
`available`, and the usage-snapshot serializer of the logging daemon
(`GPUStatDaemon.serialize_usage` / `deserialize_usage`).

Strings are modelled as `List Char` (`Str`).  Python exceptions are modelled
by `Option`: a function that can raise returns `none` on the raising paths.
Python `int` is modelled by `Int` where the source can hold arbitrary ints
(GPU counts in the inventory), and by `Nat` where the value is parsed from a
digit string (allocation counts).  Python dicts are modelled as association
lists in insertion order; `defaultdict` lookups that auto-default are
modelled with `getD`.
-/

abbrev Str := List Char

/-- Python `str.strip()`: drop whitespace from both ends (models line 154,
`node_str = node_str.strip()`). -/
def pyStrip (s : Str) : Str :=
  (s.dropWhile Char.isWhitespace).reverse.dropWhile Char.isWhitespace |>.reverse

/-!
## `split_node_str` (source lines 137-164)

The source walks the characters keeping a stack of open brackets
(`stack.append` on `[`, `stack.pop` on `]`), records a breakpoint after each
comma seen with an empty stack, and slices the string at the breakpoints
(each slice stops just before the following comma).  Since only `[` is ever
pushed, the stack is equivalent to a depth counter.  `stack.pop()` on an
empty stack raises `IndexError`; that raising path is the `none` result.
The final slice `node_str[last:end-1]` is the remainder of the string, which
is emitted whether or not any brackets are still open.
-/

/-- One scanning pass of `split_node_str`: `depth` is the bracket depth
(`len(stack)`), `cur` the characters of the slice being built, `acc` the
slices already completed.  `none` models the `IndexError` from popping an
empty stack on an unmatched `]`. -/
def splitNodeAux : Str → Nat → Str → List Str → Option (List Str)
  | [], _, cur, acc => some (acc ++ [cur])
  | c :: rest, depth, cur, acc =>
    if c = '[' then splitNodeAux rest (depth + 1) (cur ++ [c]) acc
    else if c = ']' then
      match depth with
      | 0 => none
      | d + 1 => splitNodeAux rest d (cur ++ [c]) acc
    else if c = ',' ∧ depth = 0 then splitNodeAux rest 0 [] (acc ++ [cur])
    else splitNodeAux rest depth (cur ++ [c]) acc

/-- `split_node_str(node_str)`: strip, then split at top-level commas. -/
def split_node_str (node_str : Str) : Option (List Str) :=
  splitNodeAux (pyStrip node_str) 0 [] []

/-!
## `parse_node_names` (source lines 167-200)
-/

/-- Python `s.index(c)`: position of the first occurrence, `None` modelling
the `ValueError` when the character does not occur. -/
def pyIndexOf : Str → Char → Option Nat
  | [], _ => none
  | c :: rest, t => if c = t then some 0 else (pyIndexOf rest t).map (· + 1)

/-- Python `s.split(sep)` for a one-character separator: full split, always
at least one (possibly empty) segment, e.g. `"".split(",") == [""]`. -/
def pySplitAll (sep : Char) : Str → List Str
  | [] => [[]]
  | c :: rest =>
    if c = sep then [] :: pySplitAll sep rest
    else
      match pySplitAll sep rest with
      | [] => [[c]]
      | seg :: segs => (c :: seg) :: segs

/-- The decimal digit character for `d % 10`, as produced by Python `str(x)`. -/
def digitChar (d : Nat) : Char :=
  match d with
  | 0 => '0' | 1 => '1' | 2 => '2' | 3 => '3' | 4 => '4'
  | 5 => '5' | 6 => '6' | 7 => '7' | 8 => '8' | _ => '9'

/-- Numeric value of a decimal digit character. -/
def digitVal (c : Char) : Nat := c.toNat - 48

/-- Decimal digits of `n`, most significant first, as Python `str(x)` prints a
non-negative int.  Fuel-based so that the kernel can evaluate it; the fuel
`n + 1` always suffices. -/
def natToDigitsAux : Nat → Nat → Str
  | 0, _ => []
  | fuel + 1, n =>
    if n < 10 then [digitChar n]
    else natToDigitsAux fuel (n / 10) ++ [digitChar (n % 10)]

/-- Python `str(x)` for a natural number. -/
def natToDigits (n : Nat) : Str := natToDigitsAux (n + 1) n

/-- Value of a digit string (no validation), most significant digit first. -/
def digitsVal (s : Str) : Nat := s.foldl (fun a c => a * 10 + digitVal c) 0

/-- Python `int(s)` restricted to plain digit strings: `none` models the
`ValueError` on the empty string or non-digit characters (the source only
ever passes digit strings on non-raising runs). -/
def digitsToNat (s : Str) : Option Nat :=
  if s ≠ [] ∧ s.all Char.isDigit then some (digitsVal s) else none

/-- Python `str(x).zfill(w)`: left-pad with `'0'` to width `w`. -/
def zfill (w : Nat) (s : Str) : Str := List.replicate (w - s.length) '0' ++ s

/-- Expansion of one subspec of the bracketed inner range (source lines
191-198): a literal suffix is appended to the prefix; a `start-end` range is
unpacked by `subspec.split("-")` (exactly two parts, otherwise the unpacking
raises), and each integer of `range(int(start), int(end) + 1)` is printed
zero-filled to `len(start)`. -/
def expandSubspec (pre subspec : Str) : Option (List Str) :=
  if '-' ∉ subspec then some [pre ++ subspec]
  else
    match pySplitAll '-' subspec with
    | [st, en] =>
      match digitsToNat st, digitsToNat en with
      | some a, some b =>
          some ((List.range' a (b + 1 - a)).map fun x =>
            pre ++ zfill st.length (natToDigits x))
      | _, _ => none
    | _ => none

/-- Expansion of one node spec (the body of the `for node_spec` loop, source
lines 184-199): a spec without `[` is a literal name; otherwise the prefix is
everything before the first `[`, the inner text runs to the first `]`
(`ValueError` → `none` when `]` is absent), and each comma-separated subspec
is expanded in turn. -/
def expandNodeSpec (node_spec : Str) : Option (List Str) :=
  if '[' ∉ node_spec then some [node_spec]
  else
    match pyIndexOf node_spec '[', pyIndexOf node_spec ']' with
    | some head, some tail =>
        let pre := node_spec.take head
        let inner := (node_spec.drop (head + 1)).take (tail - (head + 1))
        (pySplitAll ',' inner).foldlM
          (fun names sub => (expandSubspec pre sub).map (names ++ ·)) []
    | _, _ => none

/-- `parse_node_names(node_str)` (source lines 167-200). -/
def parse_node_names (node_str : Str) : Option (List Str) :=
  match split_node_str node_str with
  | none => none
  | some specs =>
      specs.foldlM (fun names spec => (expandNodeSpec spec).map (names ++ ·)) []

/-!
## `gpu_usage` (source lines 317-357)

The usage record built by `gpu_usage` is a user → gpu-type → node → count
nesting of dicts; we model it as nested association lists in insertion
order.  The same shape is used by the daemon's serializer.
-/

/-- node → allocated count (innermost `defaultdict(lambda: 0)`). -/
abbrev U3 := List (Str × Nat)

/-- gpu-type → node dict. -/
abbrev U2 := List (Str × U3)

/-- user → gpu-type dict (the whole `usage` structure). -/
abbrev U1 := List (Str × U2)

/-- First-match association-list lookup (Python dict `d[k]` / `d.get(k)`). -/
def lookupA {α : Type} : List (Str × α) → Str → Option α
  | [], _ => none
  | (k, v) :: rest, q => if k = q then some v else lookupA rest q

/-- `usage[user][gpu_type][node_name] += num` together with the surrounding
entry creation (source lines 352-356): inserting users / types / nodes that
are absent appends them (dict insertion order); an existing
(user, type, node) triple accumulates. -/
def usageAdd3 (usage : U1) (user t node : Str) (n : Nat) : U1 :=
  match usage with
  | [] => [(user, [(t, [(node, n)])])]
  | (u, u2) :: rest =>
    if u = user then
      (u, match u2 with
          | [] => [(t, [(node, n)])]
          | _ => usageAdd2 u2 t node n) :: rest
    else (u, u2) :: usageAdd3 rest user t node n
where
  /-- `usage[user][gpu_type][node_name] += num` below the user level. -/
  usageAdd2 : U2 → Str → Str → Nat → U2
  | [], t, node, n => [(t, [(node, n)])]
  | (ty, u3) :: rest, t, node, n =>
    if ty = t then (ty, usageAdd1 u3 node n) :: rest
    else (ty, u3) :: usageAdd2 rest t node n
  /-- `node_dict[node_name] += num` on the innermost `defaultdict(lambda: 0)`. -/
  usageAdd1 : U3 → Str → Nat → U3
  | [], node, n => [(node, n)]
  | (nd, c) :: rest, node, n =>
    if nd = node then (nd, c + n) :: rest
    else (nd, c) :: usageAdd1 rest node n

/-- One GPU resource record `{"type": ..., "count": ...}` as appended by
`parse_all_gpus` (source line 259). -/
structure RSpec where
  rtype : Str
  rcount : Int
deriving DecidableEq

/-- Helper for `pySplitWs`: `cur` is the reversed word being scanned. -/
def pySplitWsAux : Str → Str → List Str
  | [], cur => if cur = [] then [] else [cur.reverse]
  | c :: rest, cur =>
    if c.isWhitespace then
      if cur = [] then pySplitWsAux rest []
      else cur.reverse :: pySplitWsAux rest []
    else pySplitWsAux rest (c :: cur)

/-- Python `str.split()` with no argument: split on whitespace runs,
discarding empty fields. -/
def pySplitWs (s : Str) : List Str := pySplitWsAux s []

/-- The warning printed at source lines 347-349 when the gpu type of a node
cannot be determined (note the source's spelling `guesssing`). -/
def warnMsg (user node t : Str) : Str :=
  "WARNING >>> cannot determine node gpu type for ".toList ++ user ++
    " on ".toList ++ node ++ " (guesssing ".toList ++ t ++ ")".toList

/-- Python `s.startswith(p)`. -/
def pyStartsWith : Str → Str → Bool
  | _, [] => true
  | [], _ :: _ => false
  | c :: s, p :: ps => c = p && pyStartsWith s ps

/-- The state threaded through `gpu_usage`'s loops: the current value of the
Python variable `gpu_type` (`none` = not yet assigned, so that using it
raises `NameError`; `some none` = Python `None`), the usage record, and the
warnings printed so far. -/
abbrev GUState := Option (Option Str) × U1 × List Str

/-- The body of the `for node_name in node_names` loop of `gpu_usage`
(source lines 342-356).  `choice` stands for `random.choice`, which returns
a member of its argument and raises (`none`) on an empty sequence.
`resources[node_name]` is a `defaultdict(list)` lookup, so a node with no
inventory entry yields `[]`.  Note that the source assigns the *row*-scoped
variable `gpu_type` inside this loop, so a type inferred (or guessed) for one
node is reused for the remaining nodes of the same row. -/
def processNode (choice : List Str → Option Str)
    (resources : List (Str × List RSpec)) (user : Str) (num_gpus : Nat)
    (st : GUState) (node : Str) : Option GUState :=
  let tys := ((lookupA resources node).getD []).map (·.rtype)
  match st with
  | (none, _, _) => none
  | (some none, usage, warns) =>
      -- `if len(node_gpu_types) != 1` with the two branches swapped
      match tys with
      | [t] => some (some (some t), usageAdd3 usage user t node num_gpus, warns)
      | _ =>
        match choice tys with
        | none => none
        | some t => some (some (some t), usageAdd3 usage user t node num_gpus,
                          warns ++ [warnMsg user node t])
  | (some (some t), usage, warns) =>
      some (some (some t), usageAdd3 usage user t node num_gpus, warns)

/-- The body of the `for row in rows` loop of `gpu_usage` (source lines
329-356): whitespace-split the row; skip it when it has fewer than three
fields or its first field does not start with `"gpu"`; otherwise unpack the
three fields (more than three raises), colon-split the allocation token,
convert its last field with `int`, set `gpu_type` to `None` (2 fields) or the
explicit type (3 fields) — any other field count leaves the variable at its
previous value — and process every node of the expanded node list. -/
def processRow (choice : List Str → Option Str)
    (resources : List (Str × List RSpec)) (st : GUState) (row : Str) :
    Option GUState :=
  let tokens := pySplitWs row
  if tokens.length < 3 ∨ ¬ pyStartsWith (tokens.headD []) "gpu".toList then
    some st
  else
    match tokens with
    | [gpu_count_str, node_str, user] =>
      let gpu_count_tokens := pySplitAll ':' gpu_count_str
      match digitsToNat (gpu_count_tokens.getLastD []) with
      | none => none
      | some num_gpus =>
        let b' := if gpu_count_tokens.length = 2 then some none
                  else if gpu_count_tokens.length = 3 then
                    some (some (gpu_count_tokens.getD 1 []))
                  else st.1
        match parse_node_names node_str with
        | none => none
        | some nodes =>
            nodes.foldlM (processNode choice resources user num_gpus)
              (b', st.2.1, st.2.2)
    | _ => none

/-- `gpu_usage(resources)` (source lines 317-357), over the raw `squeue`
output rows, returning the usage record together with the warnings printed.
`choice` abstracts `random.choice`. -/
def gpu_usage (choice : List Str → Option Str)
    (resources : List (Str × List RSpec)) (rows : List Str) :
    Option (U1 × List Str) :=
  (rows.foldlM (processRow choice resources) (none, [], [])).map
    (fun st => (st.2.1, st.2.2))

/-!
## `available` (source lines 379-411) and the accessibility filters

`available` builds `res = {key: val for key, val in resources.items() if
states.get(key, "down") not in INACCESSIBLE}`: a *new top-level dict* whose
values are the *same list objects* (holding the same spec dicts) as the
caller's `resources`.  The decrement loop then assigns
`res[node][idx]["count"]`, i.e. it mutates those shared spec dicts in place.
To make this aliasing expressible we model the spec dicts as cells of an
explicit store: an inventory maps a node name to the list of *addresses* of
its spec dicts, and both the original `resources` and the filtered `res`
hold addresses into the same store.
-/

/-- One GPU spec dict `{"type": ..., "count": ...}` held in the store.  The
count is an `Int`, as in Python, although every value the program writes is
clamped to be non-negative. -/
structure HSpec where
  htype : Str
  hcount : Int
deriving DecidableEq

/-- The store of spec dicts, addressed by position. -/
abbrev Store := List HSpec

/-- An inventory structure: node name → addresses of its spec dicts (the
Python list object `resources[node]`). -/
abbrev InvRef := List (Str × List Nat)

/-- Dereference an address (reads of `res[node][idx]`). -/
def specAt (st : Store) (a : Nat) : HSpec := st.getD a ⟨[], 0⟩

/-- Write one cell of the store, leaving every other cell as it is. -/
def setAt : Store → Nat → HSpec → Store
  | [], _, _ => []
  | _ :: rest, 0, s => s :: rest
  | x :: rest, n + 1, s => x :: setAt rest n s

/-- `[x["type"] for x in res[node_name]].index(gpu_type)` followed by
`res[node_name][resource_idx]` (source lines 403-404): the address of the
first spec of `node` whose type is `t`; `none` models the `ValueError` of
`.index` when no spec has that type. -/
def findAddr (st : Store) (t : Str) : List Nat → Option Nat
  | [] => none
  | a :: rest => if (specAt st a).htype = t then some a else findAddr st t rest

/-- Resolve the spec dict that the decrement loop updates for a usage entry
on `(node, t)`: look the node up in `res` (a plain dict here — a missing key
raises `KeyError`, hence `none`) and find the first spec with type `t`. -/
def resolveAddr (st : Store) (res : InvRef) (node t : Str) : Option Nat :=
  match lookupA res node with
  | none => none
  | some addrs => findAddr st t addrs

/-- One iteration of the decrement loop (source lines 402-406) for a usage
entry `(gpu_type, node_name, user_gpu_count)`:
`count = max(count - user_gpu_count, 0); res[...]["count"] = count`. -/
def applyTriple (res : InvRef) (st : Store) (tr : Str × Str × Nat) :
    Option Store :=
  match resolveAddr st res tr.2.1 tr.1 with
  | none => none
  | some a =>
      some (setAt st a ⟨(specAt st a).htype,
        max ((specAt st a).hcount - (tr.2.2 : Int)) 0⟩)

/-- The whole decrement loop of `available` over the flattened usage
record. -/
def applyTriples (res : InvRef) : Store → List (Str × Str × Nat) →
    Option Store
  | st, [] => some st
  | st, tr :: rest =>
    match applyTriple res st tr with
    | none => none
    | some st' => applyTriples res st' rest

/-- The iteration order of the nested loops at source lines 400-402: for
each user's subdict, for each gpu type, for each node, one triple
`(gpu_type, node_name, user_gpu_count)`. -/
def flattenUsage (usage : U1) : List (Str × Str × Nat) :=
  usage.flatMap fun e =>
    e.2.flatMap fun te => te.2.map fun ne => (te.1, ne.1, ne.2)

/-- The total allocation recorded in `usage` against the pair `(node, t)`,
summed across all users (and any duplicate entries). -/
def totalAlloc (usage : U1) (node t : Str) : Nat :=
  (((flattenUsage usage).filter fun tr => tr.1 = t ∧ tr.2.1 = node).map
    (·.2.2)).sum

/-- The set of SLURM states treated as inaccessible (source line 24). -/
def INACCESSIBLE : List Str :=
  ["drain*".toList, "down*".toList, "drng".toList, "drain".toList,
   "down".toList]

/-- `states.get(key, "down")`: the state recorded for a node, defaulting to
`"down"` when the node has no entry. -/
def stateGetD (states : List (Str × Str)) (key : Str) : Str :=
  (lookupA states key).getD "down".toList

/-- The node filter of `summary` for `mode == "accessible"` (source lines
307-309), over a plain inventory. -/
def summaryAccessible (resources : List (Str × List RSpec))
    (states : List (Str × Str)) : List (Str × List RSpec) :=
  resources.filter fun e => stateGetD states e.1 ∉ INACCESSIBLE

/-- The `res = {...}` comprehension of `available` (source lines 397-398):
the same filter, over an inventory of shared addresses.  The resulting
top-level structure is new, but the address lists (and the spec dicts they
point to) are the caller's. -/
def availRes (inv : InvRef) (states : List (Str × Str)) : InvRef :=
  inv.filter fun e => stateGetD states e.1 ∉ INACCESSIBLE

/-- The contents of an inventory as seen by its owner: every node's spec
dicts, read through the store.  Reading the caller's `resources` through the
post-run store is what the caller observes after `available` returns. -/
def readInv (st : Store) (inv : InvRef) : List (Str × List HSpec) :=
  inv.map fun e => (e.1, e.2.map (specAt st))

/-!
## `GPUStatDaemon.serialize_usage` / `deserialize_usage` (source lines 47-87)

`serialize_usage` normalizes the nested defaultdicts to plain dicts and
returns `repr(usage)`; a log row is later parsed back by
`ast.literal_eval`.  For the user → type → node → count structure, `repr`
prints `{'k': v, ...}` dicts with `': '` after each key and `', '` between
entries, string keys in single quotes, and counts in decimal.  We print
exactly that text, and model the relevant fragment of `ast.literal_eval` by
a recursive-descent parser of the same grammar (fuelled so that the kernel
can evaluate it; the fuel passed by `deserialize_usage` always suffices).
The model is faithful for keys whose characters `repr` prints verbatim:
printable ASCII other than the single quote and the backslash.
-/

/-- `'` (written via its code point to keep the text plain). -/
def quoteChar : Char := Char.ofNat 39

/-- `{` -/
def lbrace : Char := Char.ofNat 123

/-- `}` -/
def rbrace : Char := Char.ofNat 125

/-- `\` -/
def backslashChar : Char := Char.ofNat 92

/-- `repr` of a string key: the text between single quotes. -/
def reprKey (k : Str) : Str := (quoteChar :: k) ++ [quoteChar]

/-- The `'key': count` entries of an innermost dict, joined by `', '`. -/
def reprEntries3 : U3 → Str
  | [] => []
  | [(k, n)] => reprKey k ++ (':' :: ' ' :: natToDigits n)
  | (k, n) :: rest =>
      reprKey k ++ (':' :: ' ' :: natToDigits n) ++
        (',' :: ' ' :: reprEntries3 rest)

/-- `repr` of an innermost node → count dict. -/
def reprDict3 (d : U3) : Str := (lbrace :: reprEntries3 d) ++ [rbrace]

/-- The `'key': value` entries of a type → node-dict dict. -/
def reprEntries2 : U2 → Str
  | [] => []
  | [(k, d)] => reprKey k ++ (':' :: ' ' :: reprDict3 d)
  | (k, d) :: rest =>
      reprKey k ++ (':' :: ' ' :: reprDict3 d) ++
        (',' :: ' ' :: reprEntries2 rest)

/-- `repr` of a type → node-dict dict. -/
def reprDict2 (d : U2) : Str := (lbrace :: reprEntries2 d) ++ [rbrace]

/-- The `'key': value` entries of the top-level user dict. -/
def reprEntries1 : U1 → Str
  | [] => []
  | [(k, d)] => reprKey k ++ (':' :: ' ' :: reprDict2 d)
  | (k, d) :: rest =>
      reprKey k ++ (':' :: ' ' :: reprDict2 d) ++
        (',' :: ' ' :: reprEntries1 rest)

/-- `GPUStatDaemon.serialize_usage(usage)` (source lines 47-62): the
`repr` text of the usage structure. -/
def serialize_usage (usage : U1) : Str := (lbrace :: reprEntries1 usage) ++ [rbrace]

/-- Consume one expected character. -/
def expectCh (c : Char) : Str → Option Str
  | x :: rest => if x = c then some rest else none
  | [] => none

/-- Parse a single-quoted string literal (no escapes, as `repr` emits for
safe keys). -/
def parseKeyTok (s : Str) : Option (Str × Str) :=
  match s with
  | x :: rest =>
      if x = quoteChar then
        match rest.dropWhile (· ≠ quoteChar) with
        | _ :: rest' => some (rest.takeWhile (· ≠ quoteChar), rest')
        | [] => none
      else none
  | [] => none

/-- Parse a decimal integer literal. -/
def parseNatTok (s : Str) : Option (Nat × Str) :=
  let ds := s.takeWhile Char.isDigit
  if ds = [] then none else some (digitsVal ds, s.dropWhile Char.isDigit)

/-- Parse the non-empty entry list of an innermost dict, consuming the
closing brace. -/
def parseEntries3 : Nat → Str → Option (U3 × Str)
  | 0, _ => none
  | fuel + 1, s =>
    match parseKeyTok s with
    | none => none
    | some (k, s1) =>
    match expectCh ':' s1 with
    | none => none
    | some s2 =>
    match expectCh ' ' s2 with
    | none => none
    | some s3 =>
    match parseNatTok s3 with
    | none => none
    | some (n, s4) =>
    match s4 with
    | c :: rest =>
        if c = rbrace then some ([(k, n)], rest)
        else if c = ',' then
          match expectCh ' ' rest with
          | none => none
          | some s5 =>
            match parseEntries3 fuel s5 with
            | none => none
            | some (d, s6) => some ((k, n) :: d, s6)
        else none
    | [] => none

/-- Parse an innermost dict. -/
def parseDict3 (fuel : Nat) (s : Str) : Option (U3 × Str) :=
  match expectCh lbrace s with
  | none => none
  | some s1 =>
    match s1 with
    | c :: rest => if c = rbrace then some ([], rest) else parseEntries3 fuel s1
    | [] => none

/-- Parse the non-empty entry list of a type-level dict. -/
def parseEntries2 : Nat → Str → Option (U2 × Str)
  | 0, _ => none
  | fuel + 1, s =>
    match parseKeyTok s with
    | none => none
    | some (k, s1) =>
    match expectCh ':' s1 with
    | none => none
    | some s2 =>
    match expectCh ' ' s2 with
    | none => none
    | some s3 =>
    match parseDict3 fuel s3 with
    | none => none
    | some (v, s4) =>
    match s4 with
    | c :: rest =>
        if c = rbrace then some ([(k, v)], rest)
        else if c = ',' then
          match expectCh ' ' rest with
          | none => none
          | some s5 =>
            match parseEntries2 fuel s5 with
            | none => none
            | some (d, s6) => some ((k, v) :: d, s6)
        else none
    | [] => none

/-- Parse a type-level dict. -/
def parseDict2 (fuel : Nat) (s : Str) : Option (U2 × Str) :=
  match expectCh lbrace s with
  | none => none
  | some s1 =>
    match s1 with
    | c :: rest => if c = rbrace then some ([], rest) else parseEntries2 fuel s1
    | [] => none

/-- Parse the non-empty entry list of the top-level dict. -/
def parseEntries1 : Nat → Str → Option (U1 × Str)
  | 0, _ => none
  | fuel + 1, s =>
    match parseKeyTok s with
    | none => none
    | some (k, s1) =>
    match expectCh ':' s1 with
    | none => none
    | some s2 =>
    match expectCh ' ' s2 with
    | none => none
    | some s3 =>
    match parseDict2 fuel s3 with
    | none => none
    | some (v, s4) =>
    match s4 with
    | c :: rest =>
        if c = rbrace then some ([(k, v)], rest)
        else if c = ',' then
          match expectCh ' ' rest with
          | none => none
          | some s5 =>
            match parseEntries1 fuel s5 with
            | none => none
            | some (d, s6) => some ((k, v) :: d, s6)
        else none
    | [] => none

/-- Parse the top-level dict. -/
def parseDict1 (fuel : Nat) (s : Str) : Option (U1 × Str) :=
  match expectCh lbrace s with
  | none => none
  | some s1 =>
    match s1 with
    | c :: rest => if c = rbrace then some ([], rest) else parseEntries1 fuel s1
    | [] => none

/-- The `ast.literal_eval(usage)` step of `GPUStatDaemon.deserialize_usage`
(source line 85), applied to the serialized usage field of one log row: the
whole text must parse as one user → type → node → count structure. -/
def deserialize_usage (s : Str) : Option U1 :=
  match parseDict1 (s.length + 1) s with
  | some (u, []) => some u
  | _ => none

/-!
## Helper notions used only in theorem statements
-/

/-- Comma-join, the inverse view of the top-level split: used to state that
`split_node_str` keeps every character and the original order. -/
def joinC : List Str → Str
  | [] => []
  | [x] => x
  | x :: xs => x ++ (',' :: joinC xs)

/-- Whether scanning `s` from bracket depth `d` ever meets a `]` at depth 0
(i.e. whether `stack.pop()` is reached with an empty stack). -/
def depthNeg : Str → Nat → Bool
  | [], _ => false
  | c :: rest, d =>
    if c = '[' then depthNeg rest (d + 1)
    else if c = ']' then
      match d with
      | 0 => true
      | d' + 1 => depthNeg rest d'
    else depthNeg rest d

/-- The spec dict a usage triple `(gpu_type, node_name, count)` is applied
to. -/
def resolveA (st : Store) (res : InvRef) (tr : Str × Str × Nat) : Option Nat :=
  resolveAddr st res tr.2.1 tr.1

/-- Whether some triple of `L` updates the cell at address `b`. -/
def hitB (st : Store) (res : InvRef) (L : List (Str × Str × Nat)) (b : Nat) :
    Bool :=
  L.any fun tr => resolveA st res tr == some b

/-- Total count subtracted at address `b` by the triples of `L`. -/
def hitsSum (st : Store) (res : InvRef) (L : List (Str × Str × Nat))
    (b : Nat) : Nat :=
  ((L.filter fun tr => resolveA st res tr == some b).map (·.2.2)).sum

/-- Key characters that Python `repr` prints verbatim inside single quotes:
printable ASCII other than the quote and the backslash.  For such keys our
printer is exactly `repr` and our parser is exactly the relevant fragment of
`ast.literal_eval`. -/
def keySafe (k : Str) : Prop :=
  ∀ c ∈ k, c ≠ quoteChar ∧ c ≠ backslashChar ∧ 32 ≤ c.toNat ∧ c.toNat ≤ 126

instance (k : Str) : Decidable (keySafe k) := by unfold keySafe; infer_instance

/-- All node keys of an innermost dict are repr-safe. -/
def wfU3 (d : U3) : Prop := ∀ e ∈ d, keySafe e.1

instance (d : U3) : Decidable (wfU3 d) := by unfold wfU3; infer_instance

/-- All type keys and node keys are repr-safe. -/
def wfU2 (d : U2) : Prop := ∀ e ∈ d, keySafe e.1 ∧ wfU3 e.2

instance (d : U2) : Decidable (wfU2 d) := by unfold wfU2; infer_instance

/-- All user, type and node keys of a usage record are repr-safe. -/
def wfUsage (u : U1) : Prop := ∀ e ∈ u, keySafe e.1 ∧ wfU2 e.2

instance (u : U1) : Decidable (wfUsage u) := by unfold wfUsage; infer_instance

/-- Entry count driving the fuel of the level-2 parser: its own entries plus
those of each inner dict. -/
def size2 (d : U2) : Nat := d.length + (d.map fun e => e.2.length).sum

/-- Entry count driving the fuel of the top-level parser. -/
def size1 (u : U1) : Nat := u.length + (u.map fun e => size2 e.2).sum

/-!
## Theorems: the top-level split (C2, C6)
-/

theorem joinC_cons_concat (a : Str) (acc : List Str) (x : Str) :
    joinC ((a :: acc) ++ [x]) = joinC (a :: acc) ++ (',' :: x) := by
  induction acc generalizing a with
  | nil => rfl
  | cons b acc ih =>
      show joinC (a :: (b :: acc) ++ [x]) = _
      rw [show (a :: (b :: acc)) ++ [x] = a :: ((b :: acc) ++ [x]) from rfl]
      show a ++ (',' :: joinC ((b :: acc) ++ [x])) = _
      rw [ih b]
      simp [joinC]

theorem joinC_push (acc : List Str) (cur : Str) (c : Char) :
    joinC (acc ++ [cur ++ [c]]) = joinC (acc ++ [cur]) ++ [c] := by
  cases acc with
  | nil => rfl
  | cons a acc => rw [joinC_cons_concat, joinC_cons_concat]; simp

theorem splitNodeAux_join (cs : Str) :
    ∀ depth cur acc res, splitNodeAux cs depth cur acc = some res →
      joinC res = joinC (acc ++ [cur]) ++ cs := by
  induction cs with
  | nil =>
      intro depth cur acc res h
      simp only [splitNodeAux, Option.some.injEq] at h
      simp [← h]
  | cons c rest ih =>
      intro depth cur acc res h
      simp only [splitNodeAux] at h
      by_cases h1 : c = '['
      · simp only [if_pos h1] at h
        rw [ih _ _ _ _ h, joinC_push]
        simp [h1]
      · simp only [if_neg h1] at h
        by_cases h2 : c = ']'
        · simp only [if_pos h2] at h
          cases depth with
          | zero => exact absurd h (by simp)
          | succ d =>
              rw [ih _ _ _ _ h, joinC_push]
              simp [h2]
        · simp only [if_neg h2] at h
          by_cases h3 : c = ',' ∧ depth = 0
          · simp only [if_pos h3] at h
            rw [ih _ _ _ _ h]
            cases acc with
            | nil => simp [joinC, h3.1]
            | cons a acc =>
                rw [show ((a :: acc) ++ [cur]) ++ [[]] =
                      (a :: (acc ++ [cur])) ++ [[]] by simp,
                    joinC_cons_concat]
                simp [h3.1]
          · simp only [if_neg h3] at h
            rw [ih _ _ _ _ h, joinC_push]
            simp

theorem splitNodeAux_none_iff (cs : Str) :
    ∀ depth cur acc, splitNodeAux cs depth cur acc = none ↔
      depthNeg cs depth = true := by
  induction cs with
  | nil => intro depth cur acc; simp [splitNodeAux, depthNeg]
  | cons c rest ih =>
      intro depth cur acc
      simp only [splitNodeAux, depthNeg]
      by_cases h1 : c = '['
      · simp [h1, ih]
      · simp only [if_neg h1]
        by_cases h2 : c = ']'
        · simp only [if_pos h2]
          cases depth with
          | zero => simp
          | succ d => simp [ih]
        · simp only [if_neg h2]
          by_cases h3 : c = ',' ∧ depth = 0
          · simp [h3, ih]
          · simp [h3, ih]

/-- C2 counterexample: the unbalanced expression `"a[1,2"` (bracket depth
ends non-zero) does *not* make the top-level split fail — `split_node_str`
silently returns the whole remainder as a single spec instead of raising
`MalformedExpression`. -/
theorem split_unbalanced_no_failure_cex :
    split_node_str "a[1,2".toList = some ["a[1,2".toList] ∧
    split_node_str "a[1,2".toList ≠ none := by
  exact ⟨by decide, by decide⟩

/-- C2 (amended): the top-level split fails only when the bracket depth goes
negative (an unmatched `]` pops the empty stack — an uncaught `IndexError`;
no `MalformedExpression` error exists in the program).  An expression whose
depth merely ends non-zero, such as `"a[1,2"`, is not rejected: the
unbalanced remainder is returned as part of the last spec. -/
theorem split_node_str_failure_iff (s : Str) :
    split_node_str s = none ↔ depthNeg (pyStrip s) 0 = true :=
  splitNodeAux_none_iff (pyStrip s) 0 [] []

/-- C6: the top-level split of a node-range expression splits on commas only
at bracket depth zero: `splitTopLevel("a[1,2],b[3,4]") = ["a[1,2]","b[3,4]"]`,
and on every successful split rejoining the specs with commas recovers the
(stripped) input, so the specs appear in original order with commas inside
brackets left intact. -/
theorem split_node_str_top_level :
    (split_node_str "a[1,2],b[3,4]".toList =
      some ["a[1,2]".toList, "b[3,4]".toList]) ∧
    ∀ s res, split_node_str s = some res → joinC res = pyStrip s := by
  refine ⟨by decide, fun s res h => ?_⟩
  have := splitNodeAux_join (pyStrip s) 0 [] [] res h
  simpa [joinC] using this

/-- Witness for C6's universally quantified part at the concrete expression
`"a[1,2],b[3,4]"`. -/
theorem split_node_str_top_level_witness :
    joinC ["a[1,2]".toList, "b[3,4]".toList] = pyStrip "a[1,2],b[3,4]".toList :=
  split_node_str_top_level.2 "a[1,2],b[3,4]".toList
    ["a[1,2]".toList, "b[3,4]".toList] (by decide)

/-- C8 counterexample: parsing the empty node-range expression does not give
the empty sequence. -/
theorem parse_empty_cex : parse_node_names "".toList ≠ some [] := by decide

/-- C8 (amended): parsing the empty node-range expression returns a
one-element sequence holding the empty node name (the final slice of the
split is the empty string, and a spec without `[` is taken literally). -/
theorem parse_empty_singleton : parse_node_names "".toList = some [[]] := by
  decide

/-!
## Theorems: digits and range expansion (C7)
-/

theorem digitChar_isDigit (d : Nat) : (digitChar d).isDigit = true := by
  unfold digitChar; split <;> decide

theorem digitVal_digitChar (d : Nat) (h : d < 10) :
    digitVal (digitChar d) = d := by
  interval_cases d <;> decide

theorem digitsVal_append (xs : Str) (c : Char) :
    digitsVal (xs ++ [c]) = digitsVal xs * 10 + digitVal c := by
  unfold digitsVal; rw [List.foldl_append]; rfl

theorem natToDigitsAux_spec (fuel : Nat) :
    ∀ n, n < fuel →
      natToDigitsAux fuel n ≠ [] ∧
      (natToDigitsAux fuel n).all Char.isDigit = true ∧
      digitsVal (natToDigitsAux fuel n) = n := by
  induction fuel with
  | zero => intro n h; omega
  | succ fuel ih =>
      intro n h
      by_cases h10 : n < 10
      · refine ⟨?_, ?_, ?_⟩ <;> simp only [natToDigitsAux, if_pos h10]
        · simp
        · simp [digitChar_isDigit]
        · show digitsVal ([] ++ [digitChar n]) = n
          rw [digitsVal_append]
          simpa [digitsVal] using digitVal_digitChar n h10
      · have hdiv : n / 10 < fuel := by
          have : n / 10 < n := Nat.div_lt_self (by omega) (by norm_num)
          omega
        obtain ⟨h1, h2, h3⟩ := ih (n / 10) hdiv
        refine ⟨?_, ?_, ?_⟩ <;> simp only [natToDigitsAux, if_neg h10]
        · simp
        · simp [List.all_append, h2, digitChar_isDigit]
        · rw [digitsVal_append, h3,
            digitVal_digitChar _ (Nat.mod_lt _ (by norm_num))]
          omega

theorem natToDigits_ne_nil (n : Nat) : natToDigits n ≠ [] :=
  (natToDigitsAux_spec (n + 1) n (by omega)).1

theorem natToDigits_all_digits (n : Nat) :
    (natToDigits n).all Char.isDigit = true :=
  (natToDigitsAux_spec (n + 1) n (by omega)).2.1

theorem digitsVal_natToDigits (n : Nat) : digitsVal (natToDigits n) = n :=
  (natToDigitsAux_spec (n + 1) n (by omega)).2.2

theorem digitsToNat_natToDigits (n : Nat) :
    digitsToNat (natToDigits n) = some n := by
  unfold digitsToNat
  rw [if_pos ⟨natToDigits_ne_nil n, natToDigits_all_digits n⟩,
    digitsVal_natToDigits]

/-- A digit character is not one of the structural characters of a node
expression and is not whitespace. -/
theorem isDigit_facts {c : Char} (h : c.isDigit = true) :
    c ≠ '[' ∧ c ≠ ']' ∧ c ≠ ',' ∧ c ≠ '-' ∧ c.isWhitespace = false := by
  have h1 : c ≠ ' ' := fun e => absurd (e ▸ h) (by decide)
  have h2 : c ≠ '\t' := fun e => absurd (e ▸ h) (by decide)
  have h3 : c ≠ '\r' := fun e => absurd (e ▸ h) (by decide)
  have h4 : c ≠ '\n' := fun e => absurd (e ▸ h) (by decide)
  refine ⟨fun e => absurd (e ▸ h) (by decide),
    fun e => absurd (e ▸ h) (by decide),
    fun e => absurd (e ▸ h) (by decide),
    fun e => absurd (e ▸ h) (by decide), ?_⟩
  simp [Char.isWhitespace, h1, h2, h3, h4]

theorem take_append_len (xs ys : Str) : (xs ++ ys).take xs.length = xs := by
  induction xs with
  | nil => rfl
  | cons a xs ih => simp [List.take_succ_cons, ih]

theorem drop_append_len (xs ys : Str) : (xs ++ ys).drop xs.length = ys := by
  induction xs with
  | nil => rfl
  | cons a xs ih => simp [ih]

theorem pyIndexOf_concat (xs ys : Str) (c : Char) (h : ∀ x ∈ xs, x ≠ c) :
    pyIndexOf (xs ++ c :: ys) c = some xs.length := by
  induction xs with
  | nil => simp [pyIndexOf]
  | cons x xs ih =>
      have hx : x ≠ c := h x (by simp)
      simp only [List.cons_append, pyIndexOf, if_neg hx, List.append_eq]
      rw [ih (fun y hy => h y (by simp [hy]))]
      rfl

theorem pySplitAll_no_sep (sep : Char) (s : Str) (h : ∀ x ∈ s, x ≠ sep) :
    pySplitAll sep s = [s] := by
  induction s with
  | nil => rfl
  | cons c rest ih =>
      have hc : c ≠ sep := h c (by simp)
      simp only [pySplitAll, if_neg hc]
      rw [ih (fun y hy => h y (by simp [hy]))]

theorem pySplitAll_concat (sep : Char) (xs ys : Str) (h : ∀ x ∈ xs, x ≠ sep) :
    pySplitAll sep (xs ++ sep :: ys) = xs :: pySplitAll sep ys := by
  induction xs with
  | nil => simp [pySplitAll]
  | cons x xs ih =>
      have hx : x ≠ sep := h x (by simp)
      simp only [List.cons_append, pySplitAll, if_neg hx, List.append_eq]
      rw [ih (fun y hy => h y (by simp [hy]))]

theorem splitNodeAux_plain (cs : Str)
    (h : ∀ x ∈ cs, x ≠ '[' ∧ x ≠ ']' ∧ x ≠ ',') :
    ∀ rest depth cur acc, splitNodeAux (cs ++ rest) depth cur acc =
      splitNodeAux rest depth (cur ++ cs) acc := by
  induction cs with
  | nil => simp
  | cons c cs ih =>
      intro rest depth cur acc
      obtain ⟨h1, h2, h3⟩ := h c (by simp)
      simp only [List.cons_append, splitNodeAux, if_neg h1, if_neg h2,
        List.append_eq]
      rw [if_neg (by tauto),
        ih (fun x hx => h x (by simp [hx])) rest depth (cur ++ [c]) acc]
      simp

theorem dropWhile_all_false {p : Char → Bool} (s : Str)
    (h : ∀ x ∈ s, p x = false) : s.dropWhile p = s := by
  cases s with
  | nil => rfl
  | cons c rest => simp [List.dropWhile, h c (by simp)]

theorem pyStrip_eq_self (s : Str) (h : ∀ x ∈ s, x.isWhitespace = false) :
    pyStrip s = s := by
  unfold pyStrip
  rw [dropWhile_all_false s h,
    dropWhile_all_false s.reverse (fun x hx => h x (List.mem_reverse.mp hx)),
    List.reverse_reverse]

theorem splitNodeAux_open (rest : Str) (d : Nat) (cur : Str) (acc : List Str) :
    splitNodeAux ('[' :: rest) d cur acc =
      splitNodeAux rest (d + 1) (cur ++ ['[']) acc := by
  simp [splitNodeAux]

theorem splitNodeAux_close (rest : Str) (d : Nat) (cur : Str)
    (acc : List Str) :
    splitNodeAux (']' :: rest) (d + 1) cur acc =
      splitNodeAux rest d (cur ++ [']']) acc := by
  simp [splitNodeAux]

theorem splitNodeAux_dash (rest : Str) (d : Nat) (cur : Str)
    (acc : List Str) :
    splitNodeAux ('-' :: rest) d cur acc =
      splitNodeAux rest d (cur ++ ['-']) acc := by
  simp only [splitNodeAux]
  rw [if_neg (by decide), if_neg (by decide),
    if_neg (fun h => absurd h.1 (by decide))]

theorem digitsToNat_of_digits (s : Str) (h1 : s ≠ [])
    (h2 : s.all Char.isDigit = true) :
    digitsToNat s = some (digitsVal s) := by
  unfold digitsToNat; rw [if_pos ⟨h1, h2⟩]

/-- C7: for a ranged subspec `start-end`, the parser emits
`prefix ++ zero_pad(x, len(start))` for every integer `x` from `int(start)`
to `int(end)` inclusive, in ascending order, preserving the leading-zero
width of the start digit string; in particular
`parse("x[01-03]") = ["x01","x02","x03"]`. -/
theorem parse_node_names_range_expansion
    (pre start endd : Str)
    (hp : ∀ x ∈ pre, x ≠ '[' ∧ x ≠ ']' ∧ x ≠ ',' ∧ x.isWhitespace = false)
    (hs1 : start ≠ []) (hs2 : start.all Char.isDigit = true)
    (he1 : endd ≠ []) (he2 : endd.all Char.isDigit = true) :
    parse_node_names (pre ++ '[' :: (start ++ '-' :: (endd ++ [']']))) =
      some ((List.range' (digitsVal start)
          (digitsVal endd + 1 - digitsVal start)).map
        fun x => pre ++ zfill start.length (natToDigits x)) ∧
    parse_node_names "x[01-03]".toList =
      some ["x01".toList, "x02".toList, "x03".toList] := by
  refine ⟨?_, by decide⟩
  have hsd : ∀ x ∈ start, x.isDigit = true := List.all_eq_true.mp hs2
  have hed : ∀ x ∈ endd, x.isDigit = true := List.all_eq_true.mp he2
  have hws : ∀ x ∈ pre ++ '[' :: (start ++ '-' :: (endd ++ [']'])),
      x.isWhitespace = false := by
    intro x hx
    rcases List.mem_append.mp hx with h | h
    · exact (hp x h).2.2.2
    · rcases List.mem_cons.mp h with rfl | h
      · decide
      · rcases List.mem_append.mp h with h | h
        · exact (isDigit_facts (hsd x h)).2.2.2.2
        · rcases List.mem_cons.mp h with rfl | h
          · decide
          · rcases List.mem_append.mp h with h | h
            · exact (isDigit_facts (hed x h)).2.2.2.2
            · rcases List.mem_cons.mp h with rfl | h
              · decide
              · cases h
  have hsplit : split_node_str (pre ++ '[' :: (start ++ '-' :: (endd ++ [']']))) =
      some [pre ++ '[' :: (start ++ '-' :: (endd ++ [']']))] := by
    unfold split_node_str
    rw [pyStrip_eq_self _ hws,
      splitNodeAux_plain pre
        (fun x hx => ⟨(hp x hx).1, (hp x hx).2.1, (hp x hx).2.2.1⟩),
      splitNodeAux_open,
      splitNodeAux_plain start
        (fun x hx => ⟨(isDigit_facts (hsd x hx)).1,
          (isDigit_facts (hsd x hx)).2.1, (isDigit_facts (hsd x hx)).2.2.1⟩),
      splitNodeAux_dash,
      splitNodeAux_plain endd
        (fun x hx => ⟨(isDigit_facts (hed x hx)).1,
          (isDigit_facts (hed x hx)).2.1, (isDigit_facts (hed x hx)).2.2.1⟩),
      splitNodeAux_close]
    show some ([] ++ [_]) = _
    simp
  have hidx1 : pyIndexOf (pre ++ '[' :: (start ++ '-' :: (endd ++ [']']))) '[' =
      some pre.length :=
    pyIndexOf_concat pre _ '[' (fun x hx => (hp x hx).1)
  have hidx2 : pyIndexOf (pre ++ '[' :: (start ++ '-' :: (endd ++ [']']))) ']' =
      some (pre.length + 1 + start.length + 1 + endd.length) := by
    have hrw : pre ++ '[' :: (start ++ '-' :: (endd ++ [']'])) =
        (pre ++ '[' :: (start ++ '-' :: endd)) ++ ']' :: [] := by simp
    rw [hrw, pyIndexOf_concat]
    · congr 1
      simp
      omega
    · intro x hx
      rcases List.mem_append.mp hx with h | h
      · exact (hp x h).2.1
      · rcases List.mem_cons.mp h with rfl | h
        · decide
        · rcases List.mem_append.mp h with h | h
          · exact (isDigit_facts (hsd x h)).2.1
          · rcases List.mem_cons.mp h with rfl | h
            · decide
            · exact (isDigit_facts (hed x h)).2.1
  have hmem : '[' ∈ pre ++ '[' :: (start ++ '-' :: (endd ++ [']'])) :=
    List.mem_append_right _ (List.mem_cons_self _ _)
  have htake : (pre ++ '[' :: (start ++ '-' :: (endd ++ [']']))).take pre.length
      = pre := take_append_len pre _
  have hdrop : (pre ++ '[' :: (start ++ '-' :: (endd ++ [']']))).drop
      (pre.length + 1) = start ++ '-' :: (endd ++ [']']) := by
    have hrw : pre ++ '[' :: (start ++ '-' :: (endd ++ [']'])) =
        (pre ++ ['[']) ++ (start ++ '-' :: (endd ++ [']'])) := by simp
    rw [hrw, show pre.length + 1 = (pre ++ ['[']).length by simp,
      drop_append_len]
  have hinner : (start ++ '-' :: (endd ++ [']'])).take
      (pre.length + 1 + start.length + 1 + endd.length - (pre.length + 1)) =
      start ++ '-' :: endd := by
    have hrw : start ++ '-' :: (endd ++ [']']) =
        (start ++ '-' :: endd) ++ [']'] := by simp
    rw [hrw, show pre.length + 1 + start.length + 1 + endd.length -
        (pre.length + 1) = (start ++ '-' :: endd).length by simp; omega,
      take_append_len]
  have hnocomma : pySplitAll ',' (start ++ '-' :: endd) =
      [start ++ '-' :: endd] := by
    refine pySplitAll_no_sep ',' _ (fun x hx => ?_)
    rcases List.mem_append.mp hx with h | h
    · exact (isDigit_facts (hsd x h)).2.2.1
    · rcases List.mem_cons.mp h with rfl | h
      · decide
      · exact (isDigit_facts (hed x h)).2.2.1
  have hsub : expandSubspec pre (start ++ '-' :: endd) =
      some ((List.range' (digitsVal start)
          (digitsVal endd + 1 - digitsVal start)).map
        fun x => pre ++ zfill start.length (natToDigits x)) := by
    unfold expandSubspec
    rw [if_neg (not_not_intro (List.mem_append_right _ (List.mem_cons_self _ _))),
      pySplitAll_concat '-' start endd
        (fun x hx => (isDigit_facts (hsd x hx)).2.2.2.1),
      pySplitAll_no_sep '-' endd
        (fun x hx => (isDigit_facts (hed x hx)).2.2.2.1)]
    simp only [digitsToNat_of_digits start hs1 hs2,
      digitsToNat_of_digits endd he1 he2]
  have hexp : expandNodeSpec (pre ++ '[' :: (start ++ '-' :: (endd ++ [']']))) =
      some ((List.range' (digitsVal start)
          (digitsVal endd + 1 - digitsVal start)).map
        fun x => pre ++ zfill start.length (natToDigits x)) := by
    unfold expandNodeSpec
    rw [if_neg (not_not_intro hmem), hidx1, hidx2]
    simp only [htake, hdrop, hinner, hnocomma, List.foldlM, hsub]
    simp [Option.bind]
  unfold parse_node_names
  rw [hsplit]
  simp only [List.foldlM, hexp]
  simp [Option.bind]

/-- Witness for C7 at `prefix = "x"`, `start = "01"`, `end = "03"`. -/
theorem parse_node_names_range_expansion_witness :
    parse_node_names ("x".toList ++ '[' ::
        ("01".toList ++ '-' :: ("03".toList ++ [']']))) =
      some ((List.range' (digitsVal "01".toList)
          (digitsVal "03".toList + 1 - digitsVal "01".toList)).map
        fun x => "x".toList ++ zfill "01".toList.length (natToDigits x)) :=
  (parse_node_names_range_expansion "x".toList "01".toList "03".toList
    (by decide) (by decide) (by decide) (by decide) (by decide)).1

/-!
## Theorems: type inference in `gpu_usage` (C3, C4)
-/

/-- C3 counterexample: inventory gives node `n1` the single type `a` and
node `n2` the single type `b`; the row `"gpu:2 n[1-2] u"` omits the type.
The aggregator infers type `a` at the first node and then *reuses* it for
`n2` (the `gpu_type is None` test no longer fires), so `n2`'s allocation is
recorded under type `a` — a type `n2` does not even have — instead of `b`. -/
theorem gpu_usage_type_reuse_cex :
    gpu_usage List.head?
        [("n1".toList, [⟨"a".toList, 1⟩]), ("n2".toList, [⟨"b".toList, 1⟩])]
        ["gpu:2 n[1-2] u".toList] =
      some ([("u".toList,
        [("a".toList, [("n1".toList, 2), ("n2".toList, 2)])])], []) ∧
    (((lookupA [("n1".toList, [(⟨"a".toList, 1⟩ : RSpec)]),
        ("n2".toList, [⟨"b".toList, 1⟩])] "n2".toList).getD []).map (·.rtype)) =
      ["b".toList] := by
  exact ⟨by rfl, by rfl⟩

/-- C3 (amended): the inventory lookup and single-distinct-type attribution
happen only while the row's `gpu_type` variable is still unset — in
particular for the first node of the row, and hence for every node of a
single-node row.  Once the variable holds a type, later nodes of the same
row reuse it without consulting the inventory. -/
theorem gpu_usage_single_type (choice : List Str → Option Str)
    (resources : List (Str × List RSpec)) (user num_gpus_v : _) (node t : Str)
    (usage : U1) (warns : List Str)
    (ht : ((lookupA resources node).getD []).map (·.rtype) = [t]) :
    processNode choice resources user num_gpus_v
        (some none, usage, warns) node =
      some (some (some t), usageAdd3 usage user t node num_gpus_v, warns) ∧
    ∀ t' usage' warns',
      processNode choice resources user num_gpus_v
          (some (some t'), usage', warns') node =
        some (some (some t'),
          usageAdd3 usage' user t' node num_gpus_v, warns') := by
  constructor
  · unfold processNode
    rw [ht]
  · intro t' usage' warns'
    rfl

/-- Witness for C3's amended claim on a single-node row with a single
distinct type. -/
theorem gpu_usage_single_type_witness :
    processNode List.head? [("n1".toList, [⟨"a".toList, 4⟩])] "u".toList 2
        (some none, [], []) "n1".toList =
      some (some (some "a".toList),
        usageAdd3 [] "u".toList "a".toList "n1".toList 2, []) :=
  (gpu_usage_single_type List.head? [("n1".toList, [⟨"a".toList, 4⟩])]
    "u".toList 2 "n1".toList "a".toList [] [] (by decide)).1

/-- C4 counterexample: a node with *zero* distinct GPU types in the
inventory (here: no inventory entry at all, so `resources[node]` is the
empty list) makes the aggregator fail fatally — `random.choice([])` raises
`IndexError` — instead of continuing with a warning. -/
theorem gpu_usage_zero_types_cex :
    gpu_usage List.head? [] ["gpu:2 n9 u".toList] = none := by rfl

/-- C4 (amended): entered with the row's type variable unset, the per-node
step of the aggregator behaves as follows.  When the node has two or more
types in the inventory, it picks one of *that node's* types via
`random.choice` (never an unrelated type), appends a warning naming the user
and the node, and continues.  When the node has zero types,
`random.choice([])` raises and the aggregator fails fatally.  (`choice`
abstracts `random.choice`: it returns a member of its argument.) -/
theorem gpu_usage_ambiguous_type (choice : List Str → Option Str)
    (resources : List (Str × List RSpec)) (user : Str) (num_gpus_v : Nat)
    (node : Str) (usage : U1) (warns : List Str)
    (hmem : ∀ l x, choice l = some x → x ∈ l)
    (hne : ∀ l, l ≠ [] → (choice l).isSome = true) :
    (2 ≤ (((lookupA resources node).getD []).map (·.rtype)).length →
      ∃ t ∈ ((lookupA resources node).getD []).map (·.rtype),
        processNode choice resources user num_gpus_v
            (some none, usage, warns) node =
          some (some (some t), usageAdd3 usage user t node num_gpus_v,
            warns ++ [warnMsg user node t]) ∧
        (∃ s1 s2, s1 ++ user ++ s2 = warnMsg user node t) ∧
        (∃ s1 s2, s1 ++ node ++ s2 = warnMsg user node t)) ∧
    (((lookupA resources node).getD []).map (·.rtype) = [] →
      processNode choice resources user num_gpus_v
        (some none, usage, warns) node = none) := by
  constructor
  · intro hlen
    have hnil : ((lookupA resources node).getD []).map (·.rtype) ≠ [] := by
      intro e
      rw [e] at hlen
      simp at hlen
    obtain ⟨t, hct⟩ := Option.isSome_iff_exists.mp (hne _ hnil)
    refine ⟨t, hmem _ t hct, ?_, ?_, ?_⟩
    · unfold processNode
      rcases hl : ((lookupA resources node).getD []).map (·.rtype) with
        _ | ⟨t1, _ | ⟨t2, l⟩⟩
      · exact absurd hl hnil
      · rw [hl] at hlen; simp at hlen
      · rw [hl] at hct
        simp only [hl, hct]
    · exact ⟨"WARNING >>> cannot determine node gpu type for ".toList,
        " on ".toList ++ node ++ " (guesssing ".toList ++ t ++ ")".toList,
        by simp [warnMsg]⟩
    · exact ⟨"WARNING >>> cannot determine node gpu type for ".toList ++
        user ++ " on ".toList,
        " (guesssing ".toList ++ t ++ ")".toList, by simp [warnMsg]⟩
  · intro hl
    have hc : choice [] = none := by
      cases hc : choice [] with
      | none => rfl
      | some x => exact absurd (hmem [] x hc) (by simp)
    unfold processNode
    rw [hl]
    simp only [hl ▸ hc]
    rw [hc]

/-- Witness for C4's amended claim: a node with two types (`a`, `b`) and a
typeless allocation row resolves to one of the node's own types, warns
naming user and node, and does not fail. -/
theorem gpu_usage_ambiguous_type_witness :
    ∃ t ∈ (((lookupA [("n1".toList,
        [(⟨"a".toList, 1⟩ : RSpec), ⟨"b".toList, 2⟩])] "n1".toList).getD
          []).map (·.rtype)),
      processNode List.head?
          [("n1".toList, [⟨"a".toList, 1⟩, ⟨"b".toList, 2⟩])]
          "u".toList 3 (some none, [], []) "n1".toList =
        some (some (some t), usageAdd3 [] "u".toList t "n1".toList 3,
          [] ++ [warnMsg "u".toList "n1".toList t]) ∧
      (∃ s1 s2, s1 ++ "u".toList ++ s2 = warnMsg "u".toList "n1".toList t) ∧
      (∃ s1 s2, s1 ++ "n1".toList ++ s2 = warnMsg "u".toList "n1".toList t) :=
  (gpu_usage_ambiguous_type List.head?
    [("n1".toList, [⟨"a".toList, 1⟩, ⟨"b".toList, 2⟩])] "u".toList 3
    "n1".toList [] []
    (fun l x h => by cases l <;> simp_all)
    (fun l h => by cases l with
      | nil => exact absurd rfl h
      | cons a l => rfl)).1 (by decide)

/-!
## Theorems: the decrement loop of `available` (C1, C5)
-/

theorem setAt_length (st : Store) : ∀ (a : Nat) (s : HSpec),
    (setAt st a s).length = st.length := by
  induction st with
  | nil => intro a s; rfl
  | cons x rest ih =>
      intro a s
      cases a with
      | zero => rfl
      | succ n => simp [setAt, ih n s]

theorem setAt_ge (st : Store) : ∀ (a : Nat) (s : HSpec),
    st.length ≤ a → setAt st a s = st := by
  induction st with
  | nil => intro a s _; rfl
  | cons x rest ih =>
      intro a s h
      cases a with
      | zero => simp at h
      | succ n => simp [setAt, ih n s (by simpa using h)]

theorem specAt_setAt_self (st : Store) : ∀ (a : Nat) (s : HSpec),
    a < st.length → specAt (setAt st a s) a = s := by
  induction st with
  | nil => intro a s h; simp at h
  | cons x rest ih =>
      intro a s h
      cases a with
      | zero => rfl
      | succ n => simpa [setAt, specAt] using ih n s (by simpa using h)

theorem specAt_setAt_ne (st : Store) : ∀ (a b : Nat) (s : HSpec), b ≠ a →
    specAt (setAt st a s) b = specAt st b := by
  induction st with
  | nil => intro a b s _; rfl
  | cons x rest ih =>
      intro a b s hne
      cases a with
      | zero =>
          cases b with
          | zero => exact absurd rfl hne
          | succ m => rfl
      | succ n =>
          cases b with
          | zero => rfl
          | succ m => simpa [setAt, specAt] using ih n m s (by omega)

theorem setAt_htype (st : Store) (a : Nat) (s : HSpec)
    (hty : s.htype = (specAt st a).htype) :
    ∀ b, (specAt (setAt st a s) b).htype = (specAt st b).htype := by
  intro b
  by_cases hb : b = a
  · subst hb
    by_cases hlt : b < st.length
    · rw [specAt_setAt_self st b s hlt, hty]
    · rw [setAt_ge st b s (by omega)]
  · rw [specAt_setAt_ne st a b s hb]

theorem findAddr_congr (st st' : Store)
    (h : ∀ b, (specAt st' b).htype = (specAt st b).htype) (t : Str) :
    ∀ addrs, findAddr st' t addrs = findAddr st t addrs := by
  intro addrs
  induction addrs with
  | nil => rfl
  | cons a rest ih => simp [findAddr, h a, ih]

theorem resolveAddr_congr (st st' : Store) (res : InvRef)
    (h : ∀ b, (specAt st' b).htype = (specAt st b).htype) (node t : Str) :
    resolveAddr st' res node t = resolveAddr st res node t := by
  unfold resolveAddr
  cases lookupA res node with
  | none => rfl
  | some addrs => exact findAddr_congr st st' h t addrs

theorem findAddr_mem (st : Store) (t : Str) : ∀ (addrs : List Nat) (a : Nat),
    findAddr st t addrs = some a → a ∈ addrs ∧ (specAt st a).htype = t := by
  intro addrs
  induction addrs with
  | nil => intro a h; cases h
  | cons x rest ih =>
      intro a h
      by_cases hx : (specAt st x).htype = t
      · rw [findAddr, if_pos hx] at h
        cases h
        exact ⟨by simp, hx⟩
      · rw [findAddr, if_neg hx] at h
        obtain ⟨h1, h2⟩ := ih a h
        exact ⟨by simp [h1], h2⟩

theorem lookupA_mem {α : Type} (l : List (Str × α)) (k : Str) (v : α) :
    lookupA l k = some v → (k, v) ∈ l := by
  induction l with
  | nil => intro h; cases h
  | cons e rest ih =>
      intro h
      by_cases hk : e.1 = k
      · rw [lookupA, if_pos hk] at h
        cases h
        subst hk
        rw [Prod.mk.eta]
        exact List.mem_cons_self _ _
      · rw [lookupA, if_neg hk] at h
        exact List.mem_cons_of_mem _ (ih h)

theorem resolveAddr_exists (st : Store) (res : InvRef) (node t : Str)
    (a : Nat) (h : resolveAddr st res node t = some a) :
    ∃ addrs, lookupA res node = some addrs ∧ a ∈ addrs ∧
      (specAt st a).htype = t := by
  unfold resolveAddr at h
  cases hl : lookupA res node with
  | none => rw [hl] at h; cases h
  | some addrs =>
      rw [hl] at h
      obtain ⟨h1, h2⟩ := findAddr_mem st t addrs a h
      exact ⟨addrs, rfl, h1, h2⟩

theorem max_sub_clamp (x : Int) (b c : Nat) :
    max (max (x - (b : Int)) 0 - (c : Int)) 0 = max (x - ((b : Int) + c)) 0 := by
  rcases le_total x b with h | h <;> simp [max_def] <;> split_ifs <;> omega

theorem hitB_congr (st st' : Store) (res : InvRef)
    (h : ∀ tr, resolveA st' res tr = resolveA st res tr)
    (L : List (Str × Str × Nat)) (b : Nat) :
    hitB st' res L b = hitB st res L b := by
  unfold hitB
  rw [show (fun tr => resolveA st' res tr == some b) =
      (fun tr => resolveA st res tr == some b) from funext fun tr => by
    rw [h tr]]

theorem hitsSum_congr (st st' : Store) (res : InvRef)
    (h : ∀ tr, resolveA st' res tr = resolveA st res tr)
    (L : List (Str × Str × Nat)) (b : Nat) :
    hitsSum st' res L b = hitsSum st res L b := by
  unfold hitsSum
  rw [show (fun tr => resolveA st' res tr == some b) =
      (fun tr => resolveA st res tr == some b) from funext fun tr => by
    rw [h tr]]

theorem hitsSum_eq_zero (st : Store) (res : InvRef)
    (L : List (Str × Str × Nat)) (b : Nat)
    (h : hitB st res L b = false) : hitsSum st res L b = 0 := by
  unfold hitsSum
  rw [List.filter_eq_nil_iff.mpr]
  · rfl
  · intro tr htr
    unfold hitB at h
    rw [List.any_eq_false] at h
    simp only [h tr htr, Bool.false_eq_true, not_false_iff]

theorem applyTriple_some (res : InvRef) (st : Store) (tr : Str × Str × Nat)
    (a : Nat) (h : resolveA st res tr = some a) :
    applyTriple res st tr =
      some (setAt st a ⟨(specAt st a).htype,
        max ((specAt st a).hcount - (tr.2.2 : Int)) 0⟩) := by
  unfold applyTriple
  unfold resolveA at h
  rw [h]

/-- The decrement loop, pointwise: it succeeds whenever every triple
resolves, it never changes a cell's type, and each cell's final count is the
initial count minus the cell's total subtraction, clamped once at zero (a
cell no triple touches is untouched). -/
theorem applyTriples_spec (res : InvRef) (L : List (Str × Str × Nat)) :
    ∀ st : Store,
      (∀ e ∈ res, ∀ x ∈ e.2, x < st.length) →
      (∀ tr ∈ L, (resolveA st res tr).isSome = true) →
      ∃ st', applyTriples res st L = some st' ∧
        st'.length = st.length ∧
        (∀ b, (specAt st' b).htype = (specAt st b).htype) ∧
        (∀ b, (specAt st' b).hcount =
          if hitB st res L b then
            max ((specAt st b).hcount - (hitsSum st res L b : Int)) 0
          else (specAt st b).hcount) := by
  induction L with
  | nil =>
      intro st hb hres
      exact ⟨st, rfl, rfl, fun b => rfl, fun b => by simp [hitB, hitsSum]⟩
  | cons tr rest ih =>
      intro st hb hres
      obtain ⟨a, ha⟩ := Option.isSome_iff_exists.mp (hres tr (by simp))
      have ha_lt : a < st.length := by
        obtain ⟨addrs, hl, hmem, _⟩ := resolveAddr_exists st res tr.2.1 tr.1 a ha
        exact hb _ (lookupA_mem res _ _ hl) a hmem
      have hty_a : (specAt st a).htype = tr.1 :=
        (resolveAddr_exists st res tr.2.1 tr.1 a ha).choose_spec.2.2
      set s1 : HSpec := ⟨(specAt st a).htype,
        max ((specAt st a).hcount - (tr.2.2 : Int)) 0⟩ with hs1
      set st1 := setAt st a s1 with hst1
      have hty1 : ∀ b, (specAt st1 b).htype = (specAt st b).htype :=
        setAt_htype st a s1 rfl
      have hlen1 : st1.length = st.length := setAt_length st a s1
      have hcong : ∀ tr', resolveA st1 res tr' = resolveA st res tr' :=
        fun tr' => resolveAddr_congr st st1 res hty1 tr'.2.1 tr'.1
      have hb1 : ∀ e ∈ res, ∀ x ∈ e.2, x < st1.length := by
        intro e he x hx
        rw [hlen1]
        exact hb e he x hx
      have hres1 : ∀ tr' ∈ rest, (resolveA st1 res tr').isSome = true := by
        intro tr' h'
        rw [hcong]
        exact hres tr' (by simp [h'])
      obtain ⟨st', h1, h2, h3, h4⟩ := ih st1 hb1 hres1
      refine ⟨st', ?_, by rw [h2, hlen1], fun b => by rw [h3 b, hty1 b], ?_⟩
      · show applyTriples res st (tr :: rest) = some st'
        unfold applyTriples
        rw [applyTriple_some res st tr a (by exact ha)]
        exact h1
      · intro b
        rw [h4 b, hitB_congr st st1 res hcong, hitsSum_congr st st1 res hcong]
        have hhead : (resolveA st res tr == some b) = decide (a = b) := by
          rw [ha]
          by_cases h : a = b <;> simp [h]
        by_cases hba : b = a
        · subst hba
          have hspec1 : specAt st1 b = s1 := specAt_setAt_self st b s1 ha_lt
          have hfilter : hitsSum st res (tr :: rest) b =
              tr.2.2 + hitsSum st res rest b := by
            unfold hitsSum
            rw [List.filter_cons_of_pos (by simp [hhead])]
            simp
          have hhit : hitB st res (tr :: rest) b = true := by
            unfold hitB
            simp [hhead]
          rw [hhit, if_pos rfl, hfilter, hspec1]
          by_cases hrest : hitB st res rest b
          · rw [if_pos hrest]
            show max (max ((specAt st b).hcount - (tr.2.2 : Int)) 0 -
                (hitsSum st res rest b : Int)) 0 =
              max ((specAt st b).hcount -
                ((tr.2.2 + hitsSum st res rest b : Nat) : Int)) 0
            rw [max_sub_clamp]
            norm_cast
          · rw [if_neg hrest, hitsSum_eq_zero st res rest b (by simpa using hrest)]
            show max ((specAt st b).hcount - (tr.2.2 : Int)) 0 =
              max ((specAt st b).hcount - ((tr.2.2 + 0 : Nat) : Int)) 0
            norm_num
        · have hspec1 : specAt st1 b = specAt st b :=
            specAt_setAt_ne st a b s1 hba
          have hne : (resolveA st res tr == some b) = false := by
            rw [hhead, decide_eq_false (fun h => hba h.symm)]
          have hfilter : hitsSum st res (tr :: rest) b = hitsSum st res rest b := by
            unfold hitsSum
            rw [List.filter_cons_of_neg (by simp [hne])]
          have hhit : hitB st res (tr :: rest) b = hitB st res rest b := by
            unfold hitB
            simp [List.any_cons, hne]
          rw [hhit, hfilter, hspec1]

theorem pairwise_mem_rel {α : Type} (R : α → α → Prop) (l : List α)
    (h : l.Pairwise R) (x y : α) (hx : x ∈ l) (hy : y ∈ l) :
    x = y ∨ R x y ∨ R y x := by
  induction l with
  | nil => cases hx
  | cons a l ih =>
      obtain ⟨ha, hl⟩ := List.pairwise_cons.mp h
      rcases List.mem_cons.mp hx with rfl | hx'
      · rcases List.mem_cons.mp hy with rfl | hy'
        · exact Or.inl rfl
        · exact Or.inr (Or.inl (ha y hy'))
      · rcases List.mem_cons.mp hy with rfl | hy'
        · exact Or.inr (Or.inr (ha x hx'))
        · exact ih hl hx' hy'

/-- With pairwise-disjoint per-node address lists (distinct Python list
objects hold distinct spec dicts), an address determines the `(node, type)`
pair that resolves to it. -/
theorem resolveAddr_unique (st : Store) (res : InvRef)
    (hdisj : res.Pairwise fun e e' => ∀ x ∈ e.2, x ∉ e'.2)
    (node t node' t' : Str) (a : Nat)
    (h1 : resolveAddr st res node t = some a)
    (h2 : resolveAddr st res node' t' = some a) : node = node' ∧ t = t' := by
  obtain ⟨addrs, hl, hmem, hty⟩ := resolveAddr_exists st res node t a h1
  obtain ⟨addrs', hl', hmem', hty'⟩ := resolveAddr_exists st res node' t' a h2
  have htt : t = t' := by rw [← hty, ← hty']
  have he : (node, addrs) ∈ res := lookupA_mem res node addrs hl
  have he' : (node', addrs') ∈ res := lookupA_mem res node' addrs' hl'
  rcases pairwise_mem_rel _ res hdisj (node, addrs) (node', addrs') he he' with
    heq | hR | hR
  · exact ⟨congrArg Prod.fst heq, htt⟩
  · exact absurd hmem' (hR a hmem)
  · exact absurd hmem (hR a hmem')

/-- The decrement loop with a whole usage record: at the spec dict resolved
for each `(node, gpu-type)` pair, the final count is the pair's inventory
count minus the total allocation summed across all users, clamped at zero
once. -/
theorem applyTriples_floor (st : Store) (res : InvRef) (usage : U1)
    (hb : ∀ e ∈ res, ∀ x ∈ e.2, x < st.length)
    (hpos : ∀ b, 0 ≤ (specAt st b).hcount)
    (hdisj : res.Pairwise fun e e' => ∀ x ∈ e.2, x ∉ e'.2)
    (hres : ∀ tr ∈ flattenUsage usage, (resolveA st res tr).isSome = true) :
    ∃ st', applyTriples res st (flattenUsage usage) = some st' ∧
      ∀ node t a, resolveAddr st res node t = some a →
        (specAt st' a).hcount =
          max ((specAt st a).hcount - (totalAlloc usage node t : Int)) 0 := by
  obtain ⟨st', h1, _, _, h4⟩ :=
    applyTriples_spec res (flattenUsage usage) st hb hres
  refine ⟨st', h1, fun node t a ha => ?_⟩
  have hsum : hitsSum st res (flattenUsage usage) a = totalAlloc usage node t := by
    unfold hitsSum totalAlloc
    rw [show List.filter (fun tr => resolveA st res tr == some a)
          (flattenUsage usage) =
        List.filter (fun tr => decide (tr.1 = t ∧ tr.2.1 = node))
          (flattenUsage usage) from ?_]
    apply List.filter_congr
    intro tr htr
    by_cases hr : resolveA st res tr = some a
    · obtain ⟨hn, htt⟩ :=
        resolveAddr_unique st res hdisj tr.2.1 tr.1 node t a hr ha
      simp [hr, htt.symm, hn.symm]
    · have : ¬(tr.1 = t ∧ tr.2.1 = node) := by
        rintro ⟨rfl, hn2⟩
        exact hr (by rw [show resolveA st res tr =
          resolveAddr st res tr.2.1 tr.1 from rfl, hn2, ha])
      simp [hr, this]
  rw [h4 a]
  by_cases hhit : hitB st res (flattenUsage usage) a
  · rw [if_pos hhit, hsum]
  · rw [if_neg hhit, ← hsum,
      hitsSum_eq_zero st res (flattenUsage usage) a (by simpa using hhit)]
    rw [show ((0 : Nat) : Int) = 0 by simp, sub_zero, max_eq_left (hpos a)]

/-- C1: for every inventory and usage record, the estimator's decrement loop
succeeds and leaves, at the spec dict resolved for each `(node, gpu-type)`
pair, a count equal to the pair's inventory count minus the total allocation
summed across all users, clamped at zero *once*: the per-user sequential
clamping `count = max(count - user_gpu_count, 0)` composes to a single
flooring subtraction of the summed allocation, so the count is never
negative however large the total allocation is. -/
theorem available_floor_once (st : Store) (res : InvRef) (usage : U1)
    (hb : ∀ e ∈ res, ∀ x ∈ e.2, x < st.length)
    (hpos : ∀ b, 0 ≤ (specAt st b).hcount)
    (hdisj : res.Pairwise fun e e' => ∀ x ∈ e.2, x ∉ e'.2)
    (hres : ∀ tr ∈ flattenUsage usage, (resolveA st res tr).isSome = true) :
    ∃ st', applyTriples res st (flattenUsage usage) = some st' ∧
      ∀ node t a, resolveAddr st res node t = some a →
        (specAt st' a).hcount =
          max ((specAt st a).hcount - (totalAlloc usage node t : Int)) 0 :=
  applyTriples_floor st res usage hb hpos hdisj hres

/-- Witness for C1: a node with 4 inventory GPUs of type `a` and two users
holding 3 and 2 of them; the summed allocation 5 exceeds the inventory and
the estimate floors at zero once. -/
theorem available_floor_once_witness :
    ∃ st', applyTriples [("n".toList, [0])] [⟨"a".toList, 4⟩]
        (flattenUsage [("u1".toList, [("a".toList, [("n".toList, 3)])]),
          ("u2".toList, [("a".toList, [("n".toList, 2)])])]) = some st' ∧
      ∀ node t a, resolveAddr [⟨"a".toList, 4⟩] [("n".toList, [0])] node t =
          some a →
        (specAt st' a).hcount =
          max ((specAt [⟨"a".toList, 4⟩] a).hcount -
            (totalAlloc [("u1".toList, [("a".toList, [("n".toList, 3)])]),
              ("u2".toList, [("a".toList, [("n".toList, 2)])])] node t : Int)) 0 :=
  available_floor_once [⟨"a".toList, 4⟩] [("n".toList, [0])]
    [("u1".toList, [("a".toList, [("n".toList, 3)])]),
     ("u2".toList, [("a".toList, [("n".toList, 2)])])]
    (by decide) (fun b => by cases b <;> simp [specAt])
    (by simp) (by decide)

theorem lookupA_filter_key {α : Type} (p : Str → Bool) (l : List (Str × α))
    (k : Str) :
    lookupA (l.filter fun e => p e.1) k =
      if p k then lookupA l k else none := by
  induction l with
  | nil => simp [lookupA]
  | cons e rest ih =>
      by_cases hk : e.1 = k
      · subst hk
        by_cases hp : p e.1
        · rw [List.filter_cons_of_pos (by simpa using hp), lookupA,
            if_pos rfl, if_pos hp, lookupA, if_pos rfl]
        · rw [List.filter_cons_of_neg (by simpa using hp), ih,
            if_neg (by simpa using hp), if_neg (by simpa using hp)]
      · by_cases hp : p e.1
        · rw [List.filter_cons_of_pos (by simpa using hp), lookupA,
            if_neg hk, ih, lookupA, if_neg hk]
        · rw [List.filter_cons_of_neg (by simpa using hp), ih]
          by_cases hpk : p k
          · rw [if_pos hpk, if_pos hpk, lookupA, if_neg hk]
          · rw [if_neg hpk, if_neg hpk]

/-- C5 counterexample: one accessible node `n` with a single spec dict
`{type a, count 4}` and an allocation of 3 against it.  After `available`'s
decrement loop runs on the *filtered copy* `res`, reading the *original*
inventory structure through the shared spec dicts no longer gives the
original counts: the caller's inventory was mutated (4 became 1). -/
theorem available_mutates_cex :
    (applyTriples (availRes [("n".toList, [0])] [("n".toList, "idle".toList)])
        [⟨"a".toList, 4⟩]
        (flattenUsage [("u".toList, [("a".toList, [("n".toList, 3)])])])).map
      (fun st => readInv st [("n".toList, [0])]) ≠
    some (readInv [⟨"a".toList, 4⟩] [("n".toList, [0])]) := by decide

/-- C5 (amended): `available` builds a new *top-level* mapping (the filtered
`res`), but the per-node spec lists and spec dicts are shared with the
caller's inventory.  For an accessible node, the original inventory resolves
a `(node, type)` pair to the very same spec dict as `res`, and after the
decrement loop that dict holds the clamped decremented count — so whenever
the pair has a positive inventory count and a positive total allocation, the
count seen through the original inventory has changed: the original is *not*
left unchanged. -/
theorem available_mutates_shared (st : Store) (inv : InvRef)
    (states : List (Str × Str)) (usage : U1) (node t : Str) (a : Nat)
    (hb : ∀ e ∈ inv, ∀ x ∈ e.2, x < st.length)
    (hpos : ∀ b, 0 ≤ (specAt st b).hcount)
    (hdisj : inv.Pairwise fun e e' => ∀ x ∈ e.2, x ∉ e'.2)
    (hres : ∀ tr ∈ flattenUsage usage,
      (resolveA st (availRes inv states) tr).isSome = true)
    (hacc : stateGetD states node ∉ INACCESSIBLE)
    (ha : resolveAddr st (availRes inv states) node t = some a) :
    ∃ st', applyTriples (availRes inv states) st (flattenUsage usage) =
        some st' ∧
      resolveAddr st inv node t = some a ∧
      (specAt st' a).hcount =
        max ((specAt st a).hcount - (totalAlloc usage node t : Int)) 0 ∧
      (0 < totalAlloc usage node t → 0 < (specAt st a).hcount →
        (specAt st' a).hcount ≠ (specAt st a).hcount) := by
  have hsub : (availRes inv states).Sublist inv := List.filter_sublist inv
  have hb' : ∀ e ∈ availRes inv states, ∀ x ∈ e.2, x < st.length :=
    fun e he => hb e (hsub.mem he)
  have hdisj' : (availRes inv states).Pairwise
      fun e e' => ∀ x ∈ e.2, x ∉ e'.2 := hdisj.sublist hsub
  obtain ⟨st', h1, h2⟩ :=
    applyTriples_floor st (availRes inv states) usage hb' hpos hdisj' hres
  have horig : resolveAddr st inv node t = some a := by
    unfold resolveAddr at ha ⊢
    rw [show lookupA inv node = lookupA (availRes inv states) node by
      unfold availRes
      rw [lookupA_filter_key (fun k => decide (stateGetD states k ∉ INACCESSIBLE))
        inv node, if_pos (by simpa using hacc)]]
    exact ha
  refine ⟨st', h1, horig, h2 node t a ha, fun hpa hpc => ?_⟩
  rw [h2 node t a ha]
  have h0 := hpos a
  rcases max_cases ((specAt st a).hcount - (totalAlloc usage node t : Int)) 0 with
    ⟨he, hge⟩ | ⟨he, hlt⟩ <;> rw [he] <;> omega

/-- Witness for C5's amended claim at a concrete accessible node whose count
4 is decremented by an allocation of 3, visibly through the original
inventory. -/
theorem available_mutates_shared_witness :
    ∃ st', applyTriples
        (availRes [("n".toList, [0])] [("n".toList, "idle".toList)])
        [⟨"a".toList, 4⟩]
        (flattenUsage [("u".toList, [("a".toList, [("n".toList, 3)])])]) =
          some st' ∧
      resolveAddr [⟨"a".toList, 4⟩] [("n".toList, [0])] "n".toList "a".toList =
        some 0 ∧
      (specAt st' 0).hcount =
        max ((specAt [⟨"a".toList, 4⟩] 0).hcount -
          (totalAlloc [("u".toList, [("a".toList, [("n".toList, 3)])])]
            "n".toList "a".toList : Int)) 0 ∧
      (0 < totalAlloc [("u".toList, [("a".toList, [("n".toList, 3)])])]
          "n".toList "a".toList →
        0 < (specAt [⟨"a".toList, 4⟩] 0).hcount →
        (specAt st' 0).hcount ≠ (specAt [⟨"a".toList, 4⟩] 0).hcount) :=
  available_mutates_shared [⟨"a".toList, 4⟩] [("n".toList, [0])]
    [("n".toList, "idle".toList)]
    [("u".toList, [("a".toList, [("n".toList, 3)])])] "n".toList "a".toList 0
    (by decide) (fun b => by cases b <;> simp [specAt]) (by simp)
    (by decide) (by decide) (by decide)

/-!
## Theorems: nodes with no recorded state (C10)
-/

theorem filter_absorb {α : Type} (p q : Str × α → Bool)
    (l : List (Str × α)) (h : ∀ e, q e = false → p e = false) :
    (l.filter q).filter p = l.filter p := by
  induction l with
  | nil => rfl
  | cons e rest ih =>
      simp only [List.filter_cons]
      cases hq : q e with
      | false => simp [h e hq, ih]
      | true =>
          simp only [if_true]
          cases hp : p e with
          | false => simp [List.filter_cons, hp, ih]
          | true => simp [List.filter_cons, hp, ih]

/-- C10: a node that appears in the inventory but has no entry in the node
state mapping defaults to state `"down"`, a member of `INACCESSIBLE`, so it
is excluded both from the accessible-mode summary inventory and from the
availability estimator's working set `res` (hence contributes nothing to the
estimated availability, which is computed from `res` alone); erasing every
entry of such a node from the inventory leaves the estimator's working set
unchanged. -/
theorem missing_state_inaccessible (resources : List (Str × List RSpec))
    (inv : InvRef) (states : List (Str × Str)) (node : Str)
    (h : lookupA states node = none) :
    stateGetD states node = "down".toList ∧
    "down".toList ∈ INACCESSIBLE ∧
    lookupA (summaryAccessible resources states) node = none ∧
    lookupA (availRes inv states) node = none ∧
    availRes inv states =
      availRes (inv.filter fun e => decide ¬(e.1 = node)) states := by
  have hdown : stateGetD states node = "down".toList := by
    unfold stateGetD
    rw [h]
    rfl
  refine ⟨hdown, by decide, ?_, ?_, ?_⟩
  · unfold summaryAccessible
    rw [lookupA_filter_key (fun k => decide (stateGetD states k ∉ INACCESSIBLE))
      resources node, if_neg (by simp [hdown]; decide)]
  · unfold availRes
    rw [lookupA_filter_key (fun k => decide (stateGetD states k ∉ INACCESSIBLE))
      inv node, if_neg (by simp [hdown]; decide)]
  · unfold availRes
    rw [filter_absorb]
    intro e he
    have he1 : e.1 = node := by simpa using he
    rw [he1, hdown]
    simp
    decide

/-- Witness for C10 at a node absent from a concrete state mapping. -/
theorem missing_state_inaccessible_witness :
    stateGetD [("m".toList, "idle".toList)] "n".toList = "down".toList ∧
    "down".toList ∈ INACCESSIBLE ∧
    lookupA (summaryAccessible [("n".toList, [(⟨"a".toList, 4⟩ : RSpec)])]
      [("m".toList, "idle".toList)]) "n".toList = none ∧
    lookupA (availRes [("n".toList, [0])] [("m".toList, "idle".toList)])
      "n".toList = none ∧
    availRes [("n".toList, [0])] [("m".toList, "idle".toList)] =
      availRes (([("n".toList, [0])] : InvRef).filter
        fun e => decide ¬(e.1 = "n".toList)) [("m".toList, "idle".toList)] :=
  missing_state_inaccessible [("n".toList, [⟨"a".toList, 4⟩])]
    [("n".toList, [0])] [("m".toList, "idle".toList)] "n".toList (by decide)

/-!
## Theorems: serializer round trip (C9)
-/

theorem takeWhile_append_stop {p : Char → Bool} (k : Str) (q : Char)
    (rest : Str) (hk : ∀ c ∈ k, p c = true) (hq : p q = false) :
    (k ++ q :: rest).takeWhile p = k ∧
    (k ++ q :: rest).dropWhile p = q :: rest := by
  induction k with
  | nil => simp [List.takeWhile, List.dropWhile, hq]
  | cons c k ih =>
      have hc : p c = true := hk c (by simp)
      obtain ⟨h1, h2⟩ := ih (fun c h => hk c (by simp [h]))
      simp [hc, h1, h2]

theorem parseKeyTok_repr (k : Str) (rest : Str)
    (hk : ∀ c ∈ k, c ≠ quoteChar) :
    parseKeyTok (reprKey k ++ rest) = some (k, rest) := by
  have hform : reprKey k ++ rest = quoteChar :: (k ++ quoteChar :: rest) := by
    simp [reprKey]
  obtain ⟨h1, h2⟩ := takeWhile_append_stop (p := fun c => c ≠ quoteChar)
    k quoteChar rest (fun c hc => by simpa using hk c hc) (by simp)
  rw [hform]
  unfold parseKeyTok
  show (if quoteChar = quoteChar then
      match List.dropWhile (fun x => decide (x ≠ quoteChar))
          (k ++ quoteChar :: rest) with
      | _ :: rest' => some (List.takeWhile (fun x => decide (x ≠ quoteChar))
          (k ++ quoteChar :: rest), rest')
      | [] => none
    else none) = some (k, rest)
  rw [if_pos rfl, h2, h1]

theorem parseNatTok_repr (n : Nat) (c : Char) (rest : Str)
    (hc : c.isDigit = false) :
    parseNatTok (natToDigits n ++ c :: rest) = some (n, c :: rest) := by
  obtain ⟨h1, h2⟩ := takeWhile_append_stop (p := Char.isDigit)
    (natToDigits n) c rest
    (fun d hd => by
      have := natToDigits_all_digits n
      rw [List.all_eq_true] at this
      exact this d hd) hc
  unfold parseNatTok
  rw [h1, h2, if_neg (by simpa using natToDigits_ne_nil n),
    digitsVal_natToDigits]

theorem expectCh_cons (c : Char) (rest : Str) :
    expectCh c (c :: rest) = some rest := by
  simp [expectCh]

theorem parseEntries3_repr (d : U3) :
    ∀ fuel, d.length < fuel → d ≠ [] → wfU3 d →
    ∀ rest, parseEntries3 fuel (reprEntries3 d ++ (rbrace :: rest)) =
      some (d, rest) := by
  induction d with
  | nil => intro fuel _ hne _ _; exact absurd rfl hne
  | cons e d' ih =>
      intro fuel hf _ hwf rest
      obtain ⟨k, n⟩ := e
      have hk : ∀ c ∈ k, c ≠ quoteChar :=
        fun c hc => ((hwf (k, n) (by simp)) c hc).1
      cases fuel with
      | zero => omega
      | succ fuel =>
          cases d' with
          | nil =>
              rw [show reprEntries3 [(k, n)] ++ (rbrace :: rest) =
                  reprKey k ++ (':' :: ' ' ::
                    (natToDigits n ++ rbrace :: rest)) by
                simp [reprEntries3]]
              unfold parseEntries3
              rw [parseKeyTok_repr k _ hk]
              simp only [expectCh_cons]
              rw [parseNatTok_repr n rbrace rest (by decide)]
              simp
          | cons e' d'' =>
              rw [show reprEntries3 ((k, n) :: e' :: d'') ++ (rbrace :: rest) =
                  reprKey k ++ (':' :: ' ' :: (natToDigits n ++ ',' :: ' ' ::
                    (reprEntries3 (e' :: d'') ++ (rbrace :: rest)))) by
                simp [reprEntries3]]
              unfold parseEntries3
              rw [parseKeyTok_repr k _ hk]
              simp only [expectCh_cons]
              rw [parseNatTok_repr n ',' _ (by decide)]
              simp only [if_neg (by decide : ¬(',' : Char) = rbrace),
                if_pos rfl, expectCh_cons]
              rw [ih fuel (by simpa using hf) (by simp)
                (fun x hx => hwf x (by simp [hx])) rest]
              simp

theorem reprEntries3_head (e : Str × Nat) (d' : U3) :
    ∃ tl, reprEntries3 (e :: d') = quoteChar :: tl := by
  obtain ⟨k, n⟩ := e
  cases d' with
  | nil => exact ⟨k ++ [quoteChar] ++ (':' :: ' ' :: natToDigits n),
      by simp [reprEntries3, reprKey]⟩
  | cons e'' d'' =>
      exact ⟨k ++ [quoteChar] ++ (':' :: ' ' :: natToDigits n) ++
        (',' :: ' ' :: reprEntries3 (e'' :: d'')),
        by simp [reprEntries3, reprKey]⟩

theorem parseDict3_repr (d : U3) (fuel : Nat) (hf : d.length < fuel)
    (hwf : wfU3 d) (rest : Str) :
    parseDict3 fuel (((lbrace :: reprEntries3 d) ++ [rbrace]) ++ rest) =
      some (d, rest) := by
  rw [show ((lbrace :: reprEntries3 d) ++ [rbrace]) ++ rest =
      lbrace :: (reprEntries3 d ++ (rbrace :: rest)) by simp]
  unfold parseDict3
  rw [expectCh_cons]
  cases d with
  | nil =>
      show (if rbrace = rbrace then some (([] : U3), rest)
        else parseEntries3 fuel (reprEntries3 ([] : U3) ++ (rbrace :: rest))) =
        some (([] : U3), rest)
      rw [if_pos rfl]
  | cons e d' =>
      obtain ⟨tl, htl⟩ := reprEntries3_head e d'
      rw [htl]
      show (if quoteChar = rbrace then some (([] : U3), tl ++ (rbrace :: rest))
        else parseEntries3 fuel ((quoteChar :: tl) ++ (rbrace :: rest))) =
        some (e :: d', rest)
      rw [if_neg (by decide), ← htl]
      exact parseEntries3_repr (e :: d') fuel hf (by simp) hwf rest

theorem size2_cons (k : Str) (v : U3) (d' : U2) :
    size2 ((k, v) :: d') = 1 + v.length + size2 d' := by
  simp [size2]
  ring

theorem parseEntries2_repr (d : U2) :
    ∀ fuel, size2 d < fuel → d ≠ [] → wfU2 d →
    ∀ rest, parseEntries2 fuel (reprEntries2 d ++ (rbrace :: rest)) =
      some (d, rest) := by
  induction d with
  | nil => intro fuel _ hne _ _; exact absurd rfl hne
  | cons e d' ih =>
      intro fuel hf _ hwf rest
      obtain ⟨k, v⟩ := e
      have hk : ∀ c ∈ k, c ≠ quoteChar :=
        fun c hc => ((hwf (k, v) (by simp)).1 c hc).1
      have hwfv : wfU3 v := (hwf (k, v) (by simp)).2
      cases fuel with
      | zero => omega
      | succ fuel =>
          have hvf : v.length < fuel := by rw [size2_cons] at hf; omega
          cases d' with
          | nil =>
              rw [show reprEntries2 [(k, v)] ++ (rbrace :: rest) =
                  reprKey k ++ (':' :: ' ' ::
                    (((lbrace :: reprEntries3 v) ++ [rbrace]) ++
                      (rbrace :: rest))) by simp [reprEntries2, reprDict3]]
              unfold parseEntries2
              rw [parseKeyTok_repr k _ hk]
              simp only [expectCh_cons]
              rw [parseDict3_repr v fuel hvf hwfv (rbrace :: rest)]
              simp
          | cons e' d'' =>
              have hd'f : size2 (e' :: d'') < fuel := by
                rw [size2_cons] at hf
                omega
              rw [show reprEntries2 ((k, v) :: e' :: d'') ++ (rbrace :: rest) =
                  reprKey k ++ (':' :: ' ' ::
                    (((lbrace :: reprEntries3 v) ++ [rbrace]) ++ (',' :: ' ' ::
                      (reprEntries2 (e' :: d'') ++ (rbrace :: rest))))) by
                simp [reprEntries2, reprDict3]]
              unfold parseEntries2
              rw [parseKeyTok_repr k _ hk]
              simp only [expectCh_cons]
              rw [parseDict3_repr v fuel hvf hwfv
                (',' :: ' ' :: (reprEntries2 (e' :: d'') ++ (rbrace :: rest)))]
              simp only [if_neg (by decide : ¬(',' : Char) = rbrace),
                if_pos rfl, expectCh_cons]
              rw [ih fuel hd'f (by simp)
                (fun x hx => hwf x (by simp [hx])) rest]
              simp

theorem reprEntries2_head (e : Str × U3) (d' : U2) :
    ∃ tl, reprEntries2 (e :: d') = quoteChar :: tl := by
  obtain ⟨k, v⟩ := e
  cases d' with
  | nil => exact ⟨k ++ [quoteChar] ++ (':' :: ' ' :: reprDict3 v),
      by simp [reprEntries2, reprKey]⟩
  | cons e'' d'' =>
      exact ⟨k ++ [quoteChar] ++ (':' :: ' ' :: reprDict3 v) ++
        (',' :: ' ' :: reprEntries2 (e'' :: d'')),
        by simp [reprEntries2, reprKey]⟩

theorem parseDict2_repr (d : U2) (fuel : Nat) (hf : size2 d < fuel)
    (hwf : wfU2 d) (rest : Str) :
    parseDict2 fuel (((lbrace :: reprEntries2 d) ++ [rbrace]) ++ rest) =
      some (d, rest) := by
  rw [show ((lbrace :: reprEntries2 d) ++ [rbrace]) ++ rest =
      lbrace :: (reprEntries2 d ++ (rbrace :: rest)) by simp]
  unfold parseDict2
  rw [expectCh_cons]
  cases d with
  | nil =>
      show (if rbrace = rbrace then some (([] : U2), rest)
        else parseEntries2 fuel (reprEntries2 ([] : U2) ++ (rbrace :: rest))) =
        some (([] : U2), rest)
      rw [if_pos rfl]
  | cons e d' =>
      obtain ⟨tl, htl⟩ := reprEntries2_head e d'
      rw [htl]
      show (if quoteChar = rbrace then some (([] : U2), tl ++ (rbrace :: rest))
        else parseEntries2 fuel ((quoteChar :: tl) ++ (rbrace :: rest))) =
        some (e :: d', rest)
      rw [if_neg (by decide), ← htl]
      exact parseEntries2_repr (e :: d') fuel hf (by simp) hwf rest

theorem size1_cons (k : Str) (v : U2) (d' : U1) :
    size1 ((k, v) :: d') = 1 + size2 v + size1 d' := by
  simp [size1]
  ring

theorem parseEntries1_repr (d : U1) :
    ∀ fuel, size1 d < fuel → d ≠ [] → wfUsage d →
    ∀ rest, parseEntries1 fuel (reprEntries1 d ++ (rbrace :: rest)) =
      some (d, rest) := by
  induction d with
  | nil => intro fuel _ hne _ _; exact absurd rfl hne
  | cons e d' ih =>
      intro fuel hf _ hwf rest
      obtain ⟨k, v⟩ := e
      have hk : ∀ c ∈ k, c ≠ quoteChar :=
        fun c hc => ((hwf (k, v) (by simp)).1 c hc).1
      have hwfv : wfU2 v := (hwf (k, v) (by simp)).2
      cases fuel with
      | zero => omega
      | succ fuel =>
          have hvf : size2 v < fuel := by rw [size1_cons] at hf; omega
          cases d' with
          | nil =>
              rw [show reprEntries1 [(k, v)] ++ (rbrace :: rest) =
                  reprKey k ++ (':' :: ' ' ::
                    (((lbrace :: reprEntries2 v) ++ [rbrace]) ++
                      (rbrace :: rest))) by simp [reprEntries1, reprDict2]]
              unfold parseEntries1
              rw [parseKeyTok_repr k _ hk]
              simp only [expectCh_cons]
              rw [parseDict2_repr v fuel hvf hwfv (rbrace :: rest)]
              simp
          | cons e' d'' =>
              have hd'f : size1 (e' :: d'') < fuel := by
                rw [size1_cons] at hf
                omega
              rw [show reprEntries1 ((k, v) :: e' :: d'') ++ (rbrace :: rest) =
                  reprKey k ++ (':' :: ' ' ::
                    (((lbrace :: reprEntries2 v) ++ [rbrace]) ++ (',' :: ' ' ::
                      (reprEntries1 (e' :: d'') ++ (rbrace :: rest))))) by
                simp [reprEntries1, reprDict2]]
              unfold parseEntries1
              rw [parseKeyTok_repr k _ hk]
              simp only [expectCh_cons]
              rw [parseDict2_repr v fuel hvf hwfv
                (',' :: ' ' :: (reprEntries1 (e' :: d'') ++ (rbrace :: rest)))]
              simp only [if_neg (by decide : ¬(',' : Char) = rbrace),
                if_pos rfl, expectCh_cons]
              rw [ih fuel hd'f (by simp)
                (fun x hx => hwf x (by simp [hx])) rest]
              simp

theorem reprEntries1_head (e : Str × U2) (d' : U1) :
    ∃ tl, reprEntries1 (e :: d') = quoteChar :: tl := by
  obtain ⟨k, v⟩ := e
  cases d' with
  | nil => exact ⟨k ++ [quoteChar] ++ (':' :: ' ' :: reprDict2 v),
      by simp [reprEntries1, reprKey]⟩
  | cons e'' d'' =>
      exact ⟨k ++ [quoteChar] ++ (':' :: ' ' :: reprDict2 v) ++
        (',' :: ' ' :: reprEntries1 (e'' :: d'')),
        by simp [reprEntries1, reprKey]⟩

theorem parseDict1_repr (d : U1) (fuel : Nat) (hf : size1 d < fuel)
    (hwf : wfUsage d) (rest : Str) :
    parseDict1 fuel (serialize_usage d ++ rest) = some (d, rest) := by
  rw [show serialize_usage d ++ rest =
      lbrace :: (reprEntries1 d ++ (rbrace :: rest)) by simp [serialize_usage]]
  unfold parseDict1
  rw [expectCh_cons]
  cases d with
  | nil =>
      show (if rbrace = rbrace then some (([] : U1), rest)
        else parseEntries1 fuel (reprEntries1 ([] : U1) ++ (rbrace :: rest))) =
        some (([] : U1), rest)
      rw [if_pos rfl]
  | cons e d' =>
      obtain ⟨tl, htl⟩ := reprEntries1_head e d'
      rw [htl]
      show (if quoteChar = rbrace then some (([] : U1), tl ++ (rbrace :: rest))
        else parseEntries1 fuel ((quoteChar :: tl) ++ (rbrace :: rest))) =
        some (e :: d', rest)
      rw [if_neg (by decide), ← htl]
      exact parseEntries1_repr (e :: d') fuel hf (by simp) hwf rest

theorem len_reprEntries3 (d : U3) : d.length ≤ (reprEntries3 d).length := by
  induction d with
  | nil => simp [reprEntries3]
  | cons e d' ih =>
      obtain ⟨k, n⟩ := e
      cases d' with
      | nil => simp [reprEntries3, reprKey]
      | cons e' d'' =>
          simp only [reprEntries3, reprKey] at ih ⊢
          simp at ih ⊢
          omega

theorem len_reprEntries2 (d : U2) : size2 d ≤ (reprEntries2 d).length := by
  induction d with
  | nil => simp [size2, reprEntries2]
  | cons e d' ih =>
      obtain ⟨k, v⟩ := e
      have h3 := len_reprEntries3 v
      rw [size2_cons]
      cases d' with
      | nil =>
          simp [reprEntries2, reprKey, reprDict3, size2]
          omega
      | cons e' d'' =>
          simp only [reprEntries2, reprKey, reprDict3] at ih ⊢
          simp at ih ⊢
          omega

theorem len_reprEntries1 (u : U1) : size1 u ≤ (reprEntries1 u).length := by
  induction u with
  | nil => simp [size1, reprEntries1]
  | cons e d' ih =>
      obtain ⟨k, v⟩ := e
      have h2 := len_reprEntries2 v
      rw [size1_cons]
      cases d' with
      | nil =>
          simp [reprEntries1, reprKey, reprDict2, size1]
          omega
      | cons e' d'' =>
          simp only [reprEntries1, reprKey, reprDict2] at ih ⊢
          simp at ih ⊢
          omega

/-- C9: serializing a usage record (user → gpu-type → node → count, with
repr-safe keys and non-negative counts, zero-valued entries included) to the
daemon's text form and deserializing it again reproduces the record exactly
— values and entry order, nothing lost. -/
theorem serialize_usage_roundtrip (u : U1) (hwf : wfUsage u) :
    deserialize_usage (serialize_usage u) = some u := by
  unfold deserialize_usage
  have hfu : size1 u < (serialize_usage u).length + 1 := by
    have h1 := len_reprEntries1 u
    have h2 : (serialize_usage u).length = (reprEntries1 u).length + 2 := by
      simp [serialize_usage]
    omega
  rw [show serialize_usage u = serialize_usage u ++ [] from
    (List.append_nil _).symm,
    parseDict1_repr u _ (by simpa using hfu) hwf []]

/-- Witness for C9 at a concrete usage record with a zero-valued entry and
an empty inner dict. -/
theorem serialize_usage_roundtrip_witness :
    deserialize_usage (serialize_usage
      [("bob".toList, [("v100".toList, [("n1".toList, 2), ("n2".toList, 0)])]),
       ("eve".toList, [])]) =
    some [("bob".toList,
        [("v100".toList, [("n1".toList, 2), ("n2".toList, 0)])]),
      ("eve".toList, [])] :=
  serialize_usage_roundtrip
    [("bob".toList, [("v100".toList, [("n1".toList, 2), ("n2".toList, 0)])]),
     ("eve".toList, [])] (by decide)

/-!
## Concrete evaluations of the embedded functions
-/

example : parse_node_names "node[001-003]".toList =
    some ["node001".toList, "node002".toList, "node003".toList] := by decide

example : parse_node_names "node[001-002],node004".toList =
    some ["node001".toList, "node002".toList, "node004".toList] := by decide

example : split_node_str "a[1,2],b[3,4]".toList =
    some ["a[1,2]".toList, "b[3,4]".toList] := by decide

example : split_node_str "a[1,2".toList = some ["a[1,2".toList] := by decide

example : split_node_str "a]".toList = none := by decide

example : parse_node_names "".toList = some [[]] := by decide

example : parse_node_names "x[01-03]".toList =
    some ["x01".toList, "x02".toList, "x03".toList] := by decide

example :
    gpu_usage List.head?
      [("n1".toList, [⟨"a".toList, 1⟩]), ("n2".toList, [⟨"b".toList, 1⟩])]
      ["gpu:2 n[1-2] u".toList] =
    some ([("u".toList, [("a".toList, [("n1".toList, 2), ("n2".toList, 2)])])],
          []) := by rfl

example : gpu_usage List.head? [] ["gpu:2 n9 u".toList] = none := by rfl

example :
    gpu_usage List.head?
      [("n1".toList, [⟨"a".toList, 1⟩, ⟨"b".toList, 2⟩])]
      ["gpu:3 n1 u".toList] =
    some ([("u".toList, [("a".toList, [("n1".toList, 3)])])],
          [warnMsg "u".toList "n1".toList "a".toList]) := by rfl

example :
    applyTriples [("n".toList, [0])] [⟨"a".toList, 4⟩]
      (flattenUsage [("u".toList, [("a".toList, [("n".toList, 3)])])]) =
    some [⟨"a".toList, 1⟩] := by rfl

example :
    deserialize_usage (serialize_usage
      [("bob".toList, [("v100".toList, [("n1".toList, 2), ("n2".toList, 0)])]),
       ("eve".toList, [])]) =
    some [("bob".toList, [("v100".toList, [("n1".toList, 2), ("n2".toList, 0)])]),
          ("eve".toList, [])] := by rfl
